import Mathlib

/-!
# Verification of the DarkHorses odds-collection core

Shallow embedding of the odds acquisition and normalization engine:
the proximity-adaptive live scheduler (`cron_live.py`), the
change-detection upsert engine (`live_odds_client.py`), the historical
reconciler (`historical_odds_fetcher.py`, `schema_mapping.py`,
`historical_odds_client.py`) and the backfill progress tracker
(`cron_historical.py`).

Modelling conventions:
* Python decimal odds values (floats parsed from strings) are modelled as
  rationals `ℚ`; an `Option ℚ` value `none` stands for a missing, empty or
  unparseable value (all of which the Python code maps to the same
  observable outcome in the functions modelled here).
* Finishing positions are kept as `Option String` because the source
  distinguishes string-level tests (`strip() == "1"`, `isdigit()`).
* Database tables are modelled as lists of rows; dictionaries as
  association lists with Python `dict` semantics (later insert of the same
  key overwrites, iteration follows first-insertion order).
-/

namespace PyModel

/-- Python truthiness for an optional string field obtained with
`.get(...)`: `None` and the empty string are falsy; a truthy value is
returned unchanged. -/
def truthyStr (v : Option String) : Option String :=
  match v with
  | none => none
  | some s => if s = "" then none else some s

/-- Association-list update with Python `dict` semantics: assigning an
existing key overwrites its value in place, a new key is appended
(iteration order is first-insertion order). -/
def dictSet {α β : Type} [DecidableEq α] (m : List (α × β)) (k : α) (v : β) :
    List (α × β) :=
  if m.any (fun p => p.1 = k) then
    m.map (fun p => if p.1 = k then (k, v) else p)
  else
    m ++ [(k, v)]

/-- Python `dict` lookup on an association list built with `dictSet`. -/
def dictGet {α β : Type} [DecidableEq α] (m : List (α × β)) (k : α) :
    Option β :=
  (m.find? (fun p => p.1 = k)).map (fun p => p.2)

/-- Python `str.strip()`: remove leading and trailing whitespace. -/
def pyStrip (s : String) : String :=
  ⟨((s.data.dropWhile Char.isWhitespace).reverse.dropWhile
      Char.isWhitespace).reverse⟩

/-- Python `str.isdigit()` (restricted to ASCII digits): nonempty and
all characters are digits. -/
def pyStrIsDigit (s : String) : Bool :=
  !s.data.isEmpty && s.data.all Char.isDigit

/-- Value of a digit string, as Python `int(...)` computes it. -/
def digitsToNat (s : String) : ℕ :=
  s.data.foldl (fun n c => 10 * n + (c.toNat - Char.toNat '0')) 0

/-- Python `int(position) if str(position).isdigit() else None`. -/
def pyParseNat (s : String) : Option ℕ :=
  if pyStrIsDigit s then some (digitsToNat s) else none

/-- Python `str.upper()` (ASCII). -/
def pyUpper (s : String) : String :=
  ⟨s.data.map Char.toUpper⟩

end PyModel

namespace SchemaMapping

open PyModel

/-- The lookup loop `for idx, sp in enumerate(sorted_sps, 1): if
current_sp == sp: return idx` (`schema_mapping.py` lines 163–165):
first exact match wins, indices start at `start`. -/
def findFirstIndex (current : ℚ) : List ℚ → ℕ → Option ℕ
  | [], _ => none
  | x :: xs, idx => if current = x then some idx else findFirstIndex current xs (idx + 1)

/-- From `schema_mapping.py`, `calculate_sp_favorite_position`
(legacy monolithic copy, lines 129–170).  A runner's starting price is the
parsed value of its `sp_dec` field; `none` models a missing / empty /
unparseable `sp_dec`.  The Python code collects all parseable SPs, forms
`sorted(set(sps))` — ascending distinct values — and returns the 1-based
index of the first exact match of the current runner's SP. -/
def calculate_sp_favorite_position (all_runners : List (Option ℚ))
    (current_sp_dec : Option ℚ) : Option ℕ :=
  match current_sp_dec, all_runners with
  | none, _ => none
  | _, [] => none
  | some current_sp, runners =>
    let sps := runners.filterMap id
    if sps.isEmpty then none
    else
      let sorted_sps := sps.dedup.mergeSort (fun a b => a ≤ b)
      findFirstIndex current_sp sorted_sps 1

/-- From `schema_mapping.py`, `calculate_sp_win_return` (lines 172–196).
`sp_dec` is the parsed starting price; `position` is the raw finishing
position string (`none` models a missing or empty value, which Python's
`if not position` guard also rejects). -/
def calculate_sp_win_return (sp_dec : Option ℚ) (position : Option String) :
    Option ℚ :=
  match sp_dec, position with
  | some sp, some p =>
    if p = "" then none
    else if pyStrip p = "1" then some sp else some 0
  | _, _ => none

/-- Place terms ladder shared by `calculate_ew_return` and
`calculate_place_return` (the source duplicates this `if/elif` ladder in
both functions): `(place_fraction, place_positions)` in terms of the
number of runners; `none` when fewer than 5 runners (no each-way). -/
def placeTerms (runners_count : ℕ) : Option (ℚ × ℕ) :=
  if runners_count ≥ 16 then some (1/4, 4)
  else if runners_count ≥ 12 then some (1/4, 3)
  else if runners_count ≥ 8 then some (1/5, 3)
  else if runners_count ≥ 5 then some (1/4, 2)
  else none

/-- From `schema_mapping.py`, `calculate_ew_return` (lines 198–258).
`pos = int(position) if str(position).isdigit() else None` is modelled by
`pyParseNat` (defined exactly when the string is nonempty and all
digits). -/
def calculate_ew_return (sp_dec : Option ℚ) (position : Option String)
    (runners_count : ℕ) : Option ℚ :=
  match sp_dec, position with
  | some sp, some p =>
    if p = "" then none
    else
      match pyParseNat p with
      | none => none
      | some pos =>
        match placeTerms runners_count with
        | none => none
        | some (place_fraction, place_positions) =>
          if pos = 1 then
            some (sp + (1 + (sp - 1) * place_fraction))
          else if pos ≤ place_positions then
            some (1 + (sp - 1) * place_fraction)
          else
            some 0
  | _, _ => none

/-- From `schema_mapping.py`, `calculate_place_return` (lines 260–306). -/
def calculate_place_return (sp_dec : Option ℚ) (position : Option String)
    (runners_count : ℕ) : Option ℚ :=
  match sp_dec, position with
  | some sp, some p =>
    if p = "" then none
    else
      match pyParseNat p with
      | none => none
      | some pos =>
        match placeTerms runners_count with
        | none => none
        | some (place_fraction, place_positions) =>
          if pos ≤ place_positions then
            some (1 + (sp - 1) * place_fraction)
          else
            some 0
  | _, _ => none

end SchemaMapping

namespace CronLive

/-- Scheduling intervals in seconds, from `LiveOddsScheduler.__init__`
(`cron_live.py` lines 65–68). -/
def INTERVAL_IMMINENT : ℕ := 10
def INTERVAL_SOON : ℕ := 60
def INTERVAL_UPCOMING : ℕ := 300
def INTERVAL_CHECK : ℕ := 900

/-- Proximity thresholds in minutes (`cron_live.py` lines 71–73). -/
def THRESHOLD_IMMINENT : ℚ := 5
def THRESHOLD_SOON : ℚ := 30
def THRESHOLD_UPCOMING : ℚ := 120

/-- Maximum consecutive failures before the loop halts
(`cron_live.py` line 77). -/
def max_consecutive_errors : ℕ := 5

/-- A race as seen by `get_optimal_interval`: only its
`minutes_until_start` value matters (the value
`calculate_minutes_until_race` would produce for its `off_dt`); `none`
models a race whose `off_dt` field is missing, which the loop skips. -/
abbrev RaceMinutes := Option ℚ

/-- The nearest-race fold inside `get_optimal_interval`
(`cron_live.py` lines 158–174): running minimum over races, skipping
races with no `off_dt` and races with `minutes_until < -10`
(10-minute grace period for already-started races). -/
def nearestStep (acc : Option ℚ) (m? : RaceMinutes) : Option ℚ :=
  match m? with
  | none => acc
  | some m =>
    if m < -10 then acc
    else
      match acc with
      | none => some m
      | some mm => if m < mm then some m else acc

def nearestMinutes (races : List RaceMinutes) : Option ℚ :=
  races.foldl nearestStep none

/-- From `cron_live.py`, `get_optimal_interval` (lines 152–190).
Returns the chosen polling delay in seconds.  (The human-readable reason
string returned alongside it in the source carries no further
information used by the loop and is omitted.) -/
def get_optimal_interval (races : List RaceMinutes) : ℕ :=
  match races with
  | [] => INTERVAL_CHECK
  | _ =>
    match nearestMinutes races with
    | none => INTERVAL_CHECK
    | some min_minutes =>
      if min_minutes ≤ THRESHOLD_IMMINENT then INTERVAL_IMMINENT
      else if min_minutes ≤ THRESHOLD_SOON then INTERVAL_SOON
      else if min_minutes ≤ THRESHOLD_UPCOMING then INTERVAL_UPCOMING
      else INTERVAL_CHECK

/-- From `cron_live.py`, `run_fetch_cycle` (lines 335–367): the cycle
either completes (resetting the consecutive-error counter to 0 and
returning `True`) or raises internally (its own `except` block increments
the counter and returns `False`).  `raises` abstracts whether an
exception occurs during this cycle; the returned pair is
(success flag, new consecutive-error counter). -/
def run_fetch_cycle (raises : Bool) (consecutive_errors : ℕ) : Bool × ℕ :=
  if raises then (false, consecutive_errors + 1) else (true, 0)

/-- Per-iteration environment of the `run_continuous` loop: the races
visible to `get_upcoming_races` and what happens during the iteration.
`cycleOk` / `cycleRaise`: `run_fetch_cycle` runs and succeeds / raises
internally.  `loopRaise`: an exception escapes the loop body itself
(outside `run_fetch_cycle`), landing in the outer `except` handler of
`run_continuous` (lines 425–428), which sleeps 60 seconds. -/
inductive Outcome where
  | cycleOk
  | cycleRaise
  | loopRaise
  deriving DecidableEq, Repr

structure Iteration where
  races : List RaceMinutes
  outcome : Outcome
  deriving Repr

/-- Observable events of the control loop: sleeping for a number of
seconds, starting a fetch cycle (recording the consecutive-error counter
at that moment), and halting on too many consecutive errors. -/
inductive Event where
  | sleep (seconds : ℕ)
  | fetch (errorsBefore : ℕ)
  | halt
  deriving DecidableEq, Repr

/-- The `while True` loop of `run_continuous` (`cron_live.py`
lines 399–428), driven by a finite list of iteration environments.
Each iteration: check the consecutive-error counter against the maximum
(break with a fatal error when reached), compute the interval from the
current races, sleep for it, then run one fetch cycle; an exception in
the loop body outside the fetch cycle increments the counter and sleeps
the fixed 60-second backoff instead. -/
def runLoop (consecutive_errors : ℕ) : List Iteration → List Event
  | [] => []
  | it :: rest =>
    if consecutive_errors ≥ max_consecutive_errors then [Event.halt]
    else
      match it.outcome with
      | Outcome.loopRaise => Event.sleep 60 :: runLoop (consecutive_errors + 1) rest
      | Outcome.cycleOk =>
        Event.sleep (get_optimal_interval it.races) ::
          Event.fetch consecutive_errors ::
            runLoop (run_fetch_cycle false consecutive_errors).2 rest
      | Outcome.cycleRaise =>
        Event.sleep (get_optimal_interval it.races) ::
          Event.fetch consecutive_errors ::
            runLoop (run_fetch_cycle true consecutive_errors).2 rest

/-- From `cron_live.py`, `run_continuous` (lines 369–428): an immediate
initial fetch cycle runs on startup before any sleep (lines 383–394, its
exception swallowed by `run_fetch_cycle` itself updating the counter),
then the continuous loop is entered with the resulting counter. -/
def run_continuous (initialRaises : Bool) (iters : List Iteration) :
    List Event :=
  Event.fetch 0 :: runLoop (run_fetch_cycle initialRaises 0).2 iters

end CronLive

namespace CronHistorical

/-- Backfill state persisted in `backfill_state.json`
(`cron_historical.py`, `load_state` lines 111–118).  Timestamps are kept
as opaque strings. -/
structure BackfillState where
  backfill_complete : Bool
  dates_processed : ℕ
  last_date_processed : Option String
  started_at : String
  completed_at : Option String
  deriving Repr, DecidableEq

/-- From `HistoricalOddsScheduler.__init__` (`cron_historical.py`
line 96): `total_dates = (date.today() - date(start_year, 1, 1)).days + 1`.
Dates are modelled as day numbers (days since an arbitrary epoch);
`today` and `jan1_of_start_year` are the day numbers of today and of
January 1 of the start year.  Note this counts the days from January 1
through *today* inclusive. -/
def total_dates (today jan1_of_start_year : ℤ) : ℤ :=
  (today - jan1_of_start_year) + 1

/-- From `cron_historical.py`, `is_backfill_complete` (lines 128–156).
`existing_dates_count` is `len(self.client.get_existing_dates())`, the
number of distinct dates with any persisted historical data.  The float
literal `0.95` is modelled exactly as the rational `95/100`.  Returns the
boolean result together with the possibly-updated persisted state (the
completion flag is set, never cleared). -/
def is_backfill_complete (st : BackfillState) (existing_dates_count : ℕ)
    (totalDates : ℤ) (now_iso : String) : Bool × BackfillState :=
  if st.backfill_complete then (true, st)
  else
    let completion_threshold : ℚ := (totalDates : ℚ) * (95/100)
    let is_complete : Bool := decide ((existing_dates_count : ℚ) ≥ completion_threshold)
    if is_complete then
      (true, { st with backfill_complete := true, completed_at := some now_iso })
    else
      (false, st)

/-- The completion criterion exactly as claim C8 words it, for comparison
with the source: the count of distinct dates with data is at least 95% of
the total calendar days from January 1 of the start year through
*yesterday*. -/
def claimCompletionThroughYesterday (existing_dates_count : ℕ)
    (today jan1_of_start_year : ℤ) : Prop :=
  (existing_dates_count : ℚ) ≥ ((today - jan1_of_start_year : ℤ) : ℚ) * (95/100)

end CronHistorical

namespace HistClient

open PyModel

/-- A row of the `rb_odds_historical` table, restricted to the columns
that `check_exists` / `upsert_odds` consult: the primary key
`racing_bet_data_id` and the natural-key columns.  `date_of_race` is an
ISO date or timestamp string. -/
structure Row where
  racing_bet_data_id : ℕ
  date_of_race : String
  track : String
  race_time : String
  horse_name : String
  deriving Repr, DecidableEq

/-- A mapped record as produced by the schema mapper, restricted to the
natural-key fields `upsert_odds` uses.  `horse_name` is `Option String`
(`mapped_record.get('horse_name')` may be absent; the empty string is
likewise falsy). -/
structure MappedRecord where
  date_of_race : String
  track : String
  race_time : String
  horse_name : Option String
  deriving Repr, DecidableEq

/-- `date_only = date_of_race.split('T')[0] if 'T' in date_of_race else
date_of_race` (`historical_odds_client.py` line 116). -/
def dateOnly (s : String) : String :=
  ⟨s.data.takeWhile (fun c => c ≠ 'T')⟩

/-- Whether a stored row matches the `check_exists` query
(`historical_odds_client.py` lines 119–127): `date_of_race` within
`[date_onlyT00:00:00, date_onlyT23:59:59]` — i.e. the same calendar
day — `track` equal to the uppercased query track, `horse_name` equal.
The `race_time` argument of `check_exists` is *not* part of the query
(the source comments "ideally should also match race_time, but good
enough"). -/
def rowMatches (row : Row) (date_of_race track horse_name : String) : Bool :=
  dateOnly row.date_of_race = dateOnly date_of_race
    ∧ row.track = pyUpper track
    ∧ row.horse_name = horse_name

/-- From `historical_odds_client.py`, `check_exists` (lines 101–138):
returns the `racing_bet_data_id` of the first matching row, `none`
otherwise.  The `race_time` parameter is accepted but unused, as in the
source. -/
def check_exists (db : List Row)
    (date_of_race track _race_time horse_name : String) : Option ℕ :=
  (db.find? (fun row => rowMatches row date_of_race track horse_name)).map
    (fun row => row.racing_bet_data_id)

/-- Classification of what one `upsert_odds` call did, mirroring the
`stats` counters it increments. -/
inductive UpsertAction where
  | skipped
  | updated (id : ℕ)
  | inserted (id : ℕ)
  deriving Repr, DecidableEq

/-- Fresh primary key for an inserted row (the database auto-increment
column): one more than the largest id in the table. -/
def freshId (db : List Row) : ℕ :=
  db.foldl (fun m row => max m row.racing_bet_data_id) 0 + 1

/-- From `historical_odds_client.py`, `upsert_odds` (lines 425–515),
success path of the database calls: if `horse_name` is missing/empty the
record is skipped; otherwise `check_exists` decides between an `update`
of all rows with the found `racing_bet_data_id` and an `insert` of a new
row.  Note the Python guard `if existing_id:` treats a (never generated)
id of 0 like "not found".  Returns (success flag, new table, action). -/
def upsert_odds (db : List Row) (r : MappedRecord) :
    Bool × List Row × UpsertAction :=
  match r.horse_name with
  | none => (false, db, UpsertAction.skipped)
  | some horse =>
    if horse = "" then (false, db, UpsertAction.skipped)
    else
      match check_exists db r.date_of_race r.track r.race_time horse with
      | some existing_id =>
        if existing_id = 0 then
          -- `if existing_id:` is falsy for 0: fall through to insert
          let row : Row := { racing_bet_data_id := freshId db,
                             date_of_race := r.date_of_race,
                             track := r.track,
                             race_time := r.race_time,
                             horse_name := horse }
          (true, db ++ [row], UpsertAction.inserted row.racing_bet_data_id)
        else
          (true,
           db.map (fun row =>
             if row.racing_bet_data_id = existing_id then
               { row with date_of_race := r.date_of_race,
                          track := r.track,
                          race_time := r.race_time,
                          horse_name := horse }
             else row),
           UpsertAction.updated existing_id)
      | none =>
        let row : Row := { racing_bet_data_id := freshId db,
                           date_of_race := r.date_of_race,
                           track := r.track,
                           race_time := r.race_time,
                           horse_name := horse }
        (true, db ++ [row], UpsertAction.inserted row.racing_bet_data_id)

end HistClient

namespace HistFetcher

open PyModel

/-- A per-runner result object from the results endpoint
(`/v1/results`), restricted to the fields the join reads.  `horse_id` is
a plain `String` because the dict comprehension indexes `r['horse_id']`
directly. -/
structure ResultRunner where
  horse_id : String
  horse : Option String
  position : Option String
  sp_dec : Option String
  deriving Repr, DecidableEq

/-- A race result object, restricted to the fields the join reads;
`race_id` is a plain `String` because the lookup comprehension indexes
`r['race_id']` directly. -/
structure RaceResult where
  race_id : String
  date : Option String
  course : Option String
  race_name : Option String
  runners : List ResultRunner
  deriving Repr, DecidableEq

/-- A racecard runner (pre-race), restricted to the fields the join
reads.  `pre_race_odds` stands for the per-bookmaker odds array carried
through unchanged. -/
structure RacecardRunner where
  horse_id : Option String
  odds : List (Option ℚ)
  form : Option String
  comment : Option String
  deriving Repr, DecidableEq

/-- A racecard (pre-race) object. -/
structure Racecard where
  race_id : Option String
  runners : List RacecardRunner
  deriving Repr, DecidableEq

/-- A joined record (`historical_odds_fetcher.py` lines 245–309),
restricted to the fields the verified claims touch; the remaining
metadata fields are copied verbatim from the same two sources in the
same way as the fields kept here (and `fetched_at`, a wall-clock
timestamp, is omitted). -/
structure JoinedRecord where
  race_id : String
  race_date : Option String
  course : Option String
  horse_id : String
  horse_name : Option String
  position : Option String
  sp_dec : Option String
  pre_race_odds : List (Option ℚ)
  form : Option String
  racecard_comment : Option String
  deriving Repr, DecidableEq

/-- Construction of one joined record from a matched
(racecard runner, result, result runner) triple
(`historical_odds_fetcher.py` lines 245–309). -/
def mkJoined (race_id : String) (res : RaceResult) (u : RacecardRunner)
    (rr : ResultRunner) : JoinedRecord :=
  { race_id := race_id,
    race_date := res.date,
    course := res.course,
    horse_id := rr.horse_id,
    horse_name := rr.horse,
    position := rr.position,
    sp_dec := rr.sp_dec,
    pre_race_odds := u.odds,
    form := u.form,
    racecard_comment := u.comment }

/-- `results_by_race = {r['race_id']: r for r in results}`
(`historical_odds_fetcher.py` line 208). -/
def resultsByRace (results : List RaceResult) : List (String × RaceResult) :=
  results.foldl (fun m r => dictSet m r.race_id r) []

/-- `result_runners_by_horse = {r['horse_id']: r for r in
matching_result.get('runners', [])}` (lines 226–228). -/
def runnersByHorse (runners : List ResultRunner) :
    List (String × ResultRunner) :=
  runners.foldl (fun m r => dictSet m r.horse_id r) []

/-- Inner loop over one racecard's runners (lines 231–312): skip runners
with a falsy `horse_id` or with no matching result runner, else append
the joined record. -/
def joinRunners (race_id : String) (res : RaceResult)
    (runnersMap : List (String × ResultRunner))
    (acc : List JoinedRecord) (runners : List RacecardRunner) :
    List JoinedRecord :=
  runners.foldl
    (fun acc2 u =>
      match truthyStr u.horse_id with
      | none => acc2
      | some hid =>
        match dictGet runnersMap hid with
        | none => acc2
        | some rr => acc2 ++ [mkJoined race_id res u rr])
    acc

/-- From `historical_odds_fetcher.py`, `join_racecards_and_results`
(lines 189–315): join racecards and results on race id then horse id,
skipping (without error) every racecard with a falsy race id, every
racecard race with no matching result, and every racecard runner with a
falsy horse id or no matching result runner. -/
def join_racecards_and_results (racecards : List Racecard)
    (results : List RaceResult) : List JoinedRecord :=
  let results_by_race := resultsByRace results
  racecards.foldl
    (fun acc c =>
      match truthyStr c.race_id with
      | none => acc
      | some rid =>
        match dictGet results_by_race rid with
        | none => acc
        | some res =>
          joinRunners rid res (runnersByHorse res.runners) acc c.runners)
    []

/-- Specification-side description of what one racecard runner
contributes to the join: nothing for a falsy horse id or an unmatched
runner, exactly one joined record for a matched one.  Proven equal to
the loop below in `joinRunners_eq`. -/
def runnerRecord (race_id : String) (res : RaceResult)
    (runnersMap : List (String × ResultRunner)) (u : RacecardRunner) :
    Option JoinedRecord :=
  match truthyStr u.horse_id with
  | none => none
  | some hid => (dictGet runnersMap hid).map (mkJoined race_id res u)

/-- Specification-side description of what one racecard contributes to
the join: nothing for a falsy race id or an unmatched race, its matched
runners' records otherwise.  Proven equal to the loop in `join_eq`. -/
def racecardRecords (results : List RaceResult) (c : Racecard) :
    List JoinedRecord :=
  match truthyStr c.race_id with
  | none => []
  | some rid =>
    match dictGet (resultsByRace results) rid with
    | none => []
    | some res =>
      c.runners.filterMap (runnerRecord rid res (runnersByHorse res.runners))

end HistFetcher

namespace LiveClient

open PyModel

/-- Identity key of a live odds snapshot:
`(race_id, horse_id, bookmaker_id)`. -/
abbrev Key := String × String × String

/-- A row of the `ra_odds_live` table, restricted to the columns the
change-detection bulk read selects
(`select('race_id,horse_id,bookmaker_id,odds_decimal')`).  The stored
`odds_decimal` column is nullable. -/
structure SnapshotRow where
  race_id : String
  horse_id : String
  bookmaker_id : String
  odds_decimal : Option ℚ
  deriving Repr, DecidableEq

/-- An incoming odds record handed to `update_live_odds`, restricted to
the fields its control flow reads: the three identifiers, the
`odds_decimal` value, and the further fields checked by
`_prepare_live_record`'s required-field validation.  The remaining
payload fields (jockey, trainer, draw, …) are copied/sanitized without
affecting any decision and are omitted. -/
structure LiveRecord where
  race_id : Option String
  horse_id : Option String
  bookmaker_id : Option String
  race_date : Option String
  course : Option String
  horse_name : Option String
  bookmaker_name : Option String
  odds_timestamp : Option String
  odds_decimal : Option ℚ
  odds_fractional : Option String
  deriving Repr, DecidableEq

/-- From `live_odds_client.py`, `_sanitize_value` with the default
`'str'` expected type (lines 322–336): empty strings become `None`. -/
def sanitize_value (v : Option String) : Option String :=
  match v with
  | none => none
  | some s => if s = "" then none else some s

/-- The existing-odds lookup built by `fetch_existing_odds_for_races`:
key → stored (nullable) `odds_decimal`. -/
abbrev OddsMap := List (Key × Option ℚ)

/-- From `live_odds_client.py`, `fetch_existing_odds_for_races`
(lines 85–132): with an empty race-id list, return the empty map
("assuming all new records"); otherwise query every `ra_odds_live` row
whose `race_id` is in `race_ids` (`.in_('race_id', race_ids)`) and build
the key → `odds_decimal` dictionary from the returned rows. -/
def fetch_existing_odds_for_races (race_ids : List String)
    (db : List SnapshotRow) : OddsMap :=
  if race_ids.isEmpty then []
  else
    (db.filter (fun row => race_ids.contains row.race_id)).foldl
      (fun m row =>
        dictSet m (row.race_id, row.horse_id, row.bookmaker_id)
          row.odds_decimal)
      []

/-- `race_ids = list(set(record.get('race_id') for record in odds_data
if record.get('race_id')))` (`update_live_odds`, line 187).  A Python
`set` has no specified order; first-occurrence order is chosen here. -/
def extract_race_ids (odds_data : List LiveRecord) : List String :=
  (odds_data.filterMap (fun r => truthyStr r.race_id)).dedup

/-- The raw identity key of a record inside `_process_bookmaker_batch`
(line 309): the tuple of the raw `race_id` / `horse_id` values and the
group's bookmaker id.  (For every record reaching that code path the
identifiers are present, so the `""` defaults never materialize.) -/
def rawKey (r : LiveRecord) (bookmaker_id : String) : Key :=
  (r.race_id.getD "", r.horse_id.getD "", bookmaker_id)

/-- One step of the STEP-2 change-detection loop of `update_live_odds`
(lines 196–226) over the accumulator
(`odds_to_upsert`, `skipped_count`): records missing any of the three
identifiers are dropped; a record whose key has a non-null existing
value equal to its own value is skipped; every other record is appended
to the upsert list. -/
def changeDetectStep (m : OddsMap) (acc : List LiveRecord × ℕ)
    (r : LiveRecord) : List LiveRecord × ℕ :=
  match truthyStr r.race_id, truthyStr r.horse_id, truthyStr r.bookmaker_id with
  | some rid, some hid, some bid =>
    match dictGet m (rid, hid, bid) with
    | some (some existing) =>
      match r.odds_decimal with
      | some nv =>
        if existing = nv then (acc.1, acc.2 + 1)
        else (acc.1 ++ [r], acc.2)
      | none => (acc.1 ++ [r], acc.2)
    | _ => (acc.1 ++ [r], acc.2)
  | _, _, _ => acc

/-- STEP 2 of `update_live_odds`: the filtered upsert list and the
skipped count. -/
def filterChangedOdds (m : OddsMap) (odds_data : List LiveRecord) :
    List LiveRecord × ℕ :=
  odds_data.foldl (changeDetectStep m) ([], 0)

/-- The prepared record built by `_prepare_live_record`
(lines 338–415), restricted to the modelled fields: string fields pass
through `_sanitize_value`, `odds_decimal` and `odds_timestamp` are
carried over (a float-typed sanitize and an ISO conversion in the
source). -/
structure PreparedRecord where
  race_id : Option String
  horse_id : Option String
  bookmaker_id : Option String
  race_date : Option String
  course : Option String
  horse_name : Option String
  bookmaker_name : Option String
  odds_timestamp : Option String
  odds_decimal : Option ℚ
  odds_fractional : Option String
  deriving Repr, DecidableEq

/-- From `live_odds_client.py`, `_prepare_live_record` (lines 338–415):
sanitize the fields, then validate the required fields
(`race_id`, `horse_id`, `bookmaker_id`, `race_date`, `course`,
`horse_name`, `bookmaker_name`, `odds_timestamp`); a record with any
falsy required field is rejected (`None`). -/
def prepare_live_record (r : LiveRecord) : Option PreparedRecord :=
  let p : PreparedRecord :=
    { race_id := sanitize_value r.race_id,
      horse_id := sanitize_value r.horse_id,
      bookmaker_id := sanitize_value r.bookmaker_id,
      race_date := sanitize_value r.race_date,
      course := sanitize_value r.course,
      horse_name := sanitize_value r.horse_name,
      bookmaker_name := sanitize_value r.bookmaker_name,
      odds_timestamp := r.odds_timestamp,
      odds_decimal := r.odds_decimal,
      odds_fractional := sanitize_value r.odds_fractional }
  if p.race_id.isSome && p.horse_id.isSome && p.bookmaker_id.isSome
      && p.race_date.isSome && p.course.isSome && p.horse_name.isSome
      && p.bookmaker_name.isSome && (truthyStr p.odds_timestamp).isSome then
    some p
  else
    none

/-- STEP 4's grouping of the changed records by bookmaker
(lines 248–258): the Python loop builds a dict of lists keyed by the
truthy `bookmaker_id` (records with a falsy one are dropped with a
warning); equivalently, one group per distinct bookmaker id in
first-appearance order, holding that bookmaker's records in their
original order. -/
def group_by_bookmaker (l : List LiveRecord) :
    List (String × List LiveRecord) :=
  (l.filterMap (fun r => truthyStr r.bookmaker_id)).dedup.map
    (fun bid => (bid, l.filter (fun r => truthyStr r.bookmaker_id = some bid)))

/-- Batching by `self.batch_size` (default 100) inside
`_process_bookmaker_batch` (`for i in range(0, len(records),
self.batch_size)`).  A chunk size of 0 would not terminate in Python
either; it is mapped to a single chunk. -/
def chunksOf {α : Type} (n : ℕ) : List α → List (List α)
  | [] => []
  | x :: xs =>
    if _h : n = 0 then [x :: xs]
    else (x :: xs).take n :: chunksOf n ((x :: xs).drop n)
termination_by l => l.length
decreasing_by
  simp only [List.length_drop, List.length_cons]
  omega

/-- From `live_odds_client.py`, `_process_bookmaker_batch`
(lines 283–320), success path of the writes: per batch of at most 100
records, prepare each record, count it as updated when its raw key is
present in the existing-odds map and as inserted otherwise, and upsert
the prepared records.  Returns
(inserted count, updated count, written prepared records). -/
def process_bookmaker_batch (m : OddsMap) (bookmaker_id : String)
    (records : List LiveRecord) : ℕ × ℕ × List PreparedRecord :=
  (chunksOf 100 records).foldl
    (fun acc chunk =>
      let prepared := chunk.filterMap prepare_live_record
      let ins := chunk.countP (fun r =>
        (prepare_live_record r).isSome
          && !(dictGet m (rawKey r bookmaker_id)).isSome)
      let upd := chunk.countP (fun r =>
        (prepare_live_record r).isSome
          && (dictGet m (rawKey r bookmaker_id)).isSome)
      (acc.1 + ins, acc.2.1 + upd, acc.2.2 ++ prepared))
    (0, 0, [])

/-- Specification-side view of a record's identity key: present exactly
when all three identifiers are truthy (the STEP-2 guard). -/
def recKey (r : LiveRecord) : Option Key :=
  match truthyStr r.race_id, truthyStr r.horse_id, truthyStr r.bookmaker_id with
  | some rid, some hid, some bid => some (rid, hid, bid)
  | _, _, _ => none

/-- Specification-side skip classification: the record carries its three
identifiers, the store holds a non-null decimal for the key, and that
value equals the record's decimal value. -/
def isSkipped (m : OddsMap) (r : LiveRecord) : Bool :=
  match recKey r with
  | none => false
  | some k =>
    match dictGet m k, r.odds_decimal with
    | some (some v), some w => v = w
    | _, _ => false

/-- Specification-side keep classification: identified and not skipped —
exactly the records the STEP-2 loop appends to `odds_to_upsert`. -/
def isKept (m : OddsMap) (r : LiveRecord) : Bool :=
  (recKey r).isSome && !(isSkipped m r)

/-- The raw key `_process_bookmaker_batch` builds for a record of its
own group (for records with truthy identifiers this equals the STEP-2
key). -/
def recRawKey (r : LiveRecord) : Key :=
  (r.race_id.getD "", r.horse_id.getD "",
   (truthyStr r.bookmaker_id).getD "")

/-- Specification-side "classified updated": kept, survives record
preparation, and the existing-odds map holds an entry (possibly null)
for its key. -/
def classifiedUpdated (m : OddsMap) (r : LiveRecord) : Bool :=
  isKept m r && (prepare_live_record r).isSome
    && (dictGet m (recRawKey r)).isSome

/-- Specification-side "classified new/inserted": kept, survives record
preparation, and the existing-odds map holds no entry for its key. -/
def classifiedInserted (m : OddsMap) (r : LiveRecord) : Bool :=
  isKept m r && (prepare_live_record r).isSome
    && !(dictGet m (recRawKey r)).isSome

/-- The per-cycle statistics returned by `update_live_odds`
(set-valued statistics — bookmaker/race/horse counts — are reported but
used by no claim and omitted). -/
structure Stats where
  inserted : ℕ
  updated : ℕ
  skipped : ℕ
  errors : ℕ
  deriving Repr, DecidableEq

/-- From `live_odds_client.py`, `update_live_odds` (lines 134–281) with
change detection enabled (the `DISABLE_CHANGE_DETECTION` escape hatch
off) and `race_ids=None` (extracted from the batch), success path of the
writes: bulk-read existing odds for the batch's races, filter to
changed/new records, return early when nothing changed, else group by
bookmaker and process each group.  Returns the statistics together with
the list of records written to the persistence layer. -/
def update_live_odds (db : List SnapshotRow) (odds_data : List LiveRecord) :
    Stats × List PreparedRecord :=
  let race_ids := extract_race_ids odds_data
  let m := fetch_existing_odds_for_races race_ids db
  let step2 := filterChangedOdds m odds_data
  let odds_to_upsert := step2.1
  let skipped_count := step2.2
  if odds_to_upsert.isEmpty then
    ({ inserted := 0, updated := 0, skipped := skipped_count, errors := 0 }, [])
  else
    let res := (group_by_bookmaker odds_to_upsert).foldl
      (fun acc g =>
        let r := process_bookmaker_batch m g.1 g.2
        (acc.1 + r.1, acc.2.1 + r.2.1, acc.2.2 ++ r.2.2))
      (0, 0, [])
    ({ inserted := res.1, updated := res.2.1, skipped := skipped_count,
       errors := 0 },
     res.2.2)

end LiveClient

/-! ## Theorems -/

open PyModel SchemaMapping CronLive CronHistorical HistClient HistFetcher LiveClient

open scoped List

lemma pyParseNat_ne_empty {s : String} {pos : ℕ} (h : pyParseNat s = some pos) :
    s ≠ "" := by
  rintro rfl
  simp [pyParseNat, pyStrIsDigit] at h

lemma placeTerms_pl_ge_two {n : ℕ} {fr : ℚ} {pl : ℕ}
    (h : placeTerms n = some (fr, pl)) : 2 ≤ pl := by
  unfold placeTerms at h
  split_ifs at h <;> simp_all <;> omega

lemma placeTerms_none {n : ℕ} (h : n < 5) : placeTerms n = none := by
  unfold placeTerms
  split_ifs <;> first | rfl | omega

lemma place_return_eval {sp : ℚ} {s : String} {pos : ℕ}
    (hparse : pyParseNat s = some pos) {n : ℕ} {fr : ℚ} {pl : ℕ}
    (hpt : placeTerms n = some (fr, pl)) :
    calculate_place_return (some sp) (some s) n =
      some (if pos ≤ pl then 1 + (sp - 1) * fr else 0) := by
  have hne : s ≠ "" := pyParseNat_ne_empty hparse
  simp only [calculate_place_return]
  rw [if_neg hne, hparse, hpt]
  show (if pos ≤ pl then some (1 + (sp - 1) * fr) else some 0) = _
  split_ifs <;> rfl

lemma ew_return_eval {sp : ℚ} {s : String} {pos : ℕ}
    (hparse : pyParseNat s = some pos) {n : ℕ} {fr : ℚ} {pl : ℕ}
    (hpt : placeTerms n = some (fr, pl)) :
    calculate_ew_return (some sp) (some s) n =
      some (if pos = 1 then sp + (1 + (sp - 1) * fr)
            else if pos ≤ pl then 1 + (sp - 1) * fr else 0) := by
  have hne : s ≠ "" := pyParseNat_ne_empty hparse
  simp only [calculate_ew_return]
  rw [if_neg hne, hparse, hpt]
  show (if pos = 1 then some (sp + (1 + (sp - 1) * fr))
        else if pos ≤ pl then some (1 + (sp - 1) * fr) else some 0) = _
  split_ifs <;> rfl

lemma win_return_eval {sp : ℚ} {s : String} (hne : s ≠ "") :
    calculate_sp_win_return (some sp) (some s) =
      if pyStrip s = "1" then some sp else some 0 := by
  simp only [calculate_sp_win_return]
  rw [if_neg hne]

/-- C3: for a joined record with a parseable decimal starting price `sp`
and an integer finishing position `pos` (a clean decimal string: parses
to `pos`, carries no surrounding whitespace, and equals "1" exactly for
position 1), in a race of `n` runners: the place terms are 1/4 with 4
places for `n ≥ 16`, 1/4 with 3 for `12 ≤ n ≤ 15`, 1/5 with 3 for
`8 ≤ n ≤ 11`, 1/4 with 2 for `5 ≤ n ≤ 7`, and no each-way for `n < 5`;
the place return is `1 + (sp - 1) * fraction` for `pos ≤ places` and 0
otherwise; the each-way return is win return plus place return for the
winner, the place return alone for placed-not-won, 0 otherwise; and with
exactly 8 runners 3rd place yields a non-zero place return while 4th
yields 0. -/
theorem C3_place_terms_and_returns (sp : ℚ) (s : String) (pos n : ℕ)
    (hparse : pyParseNat s = some pos) (hstrip : pyStrip s = s)
    (hone : s = "1" ↔ pos = 1) :
    (16 ≤ n → calculate_place_return (some sp) (some s) n =
        some (if pos ≤ 4 then 1 + (sp - 1) * (1/4) else 0)) ∧
    (12 ≤ n → n ≤ 15 → calculate_place_return (some sp) (some s) n =
        some (if pos ≤ 3 then 1 + (sp - 1) * (1/4) else 0)) ∧
    (8 ≤ n → n ≤ 11 → calculate_place_return (some sp) (some s) n =
        some (if pos ≤ 3 then 1 + (sp - 1) * (1/5) else 0)) ∧
    (5 ≤ n → n ≤ 7 → calculate_place_return (some sp) (some s) n =
        some (if pos ≤ 2 then 1 + (sp - 1) * (1/4) else 0)) ∧
    (n < 5 → calculate_place_return (some sp) (some s) n = none ∧
        calculate_ew_return (some sp) (some s) n = none) ∧
    (∀ fr pl, placeTerms n = some (fr, pl) →
      (pos = 1 →
        calculate_ew_return (some sp) (some s) n =
            some (sp + (1 + (sp - 1) * fr)) ∧
        calculate_sp_win_return (some sp) (some s) = some sp ∧
        calculate_place_return (some sp) (some s) n =
            some (1 + (sp - 1) * fr)) ∧
      (1 < pos → pos ≤ pl →
        calculate_ew_return (some sp) (some s) n =
            calculate_place_return (some sp) (some s) n ∧
        calculate_place_return (some sp) (some s) n =
            some (1 + (sp - 1) * fr) ∧
        calculate_sp_win_return (some sp) (some s) = some 0) ∧
      (pl < pos →
        calculate_ew_return (some sp) (some s) n = some 0 ∧
        calculate_place_return (some sp) (some s) n = some 0)) ∧
    (1 ≤ sp →
      calculate_place_return (some sp) (some "3") 8 =
          some (1 + (sp - 1) * (1/5)) ∧
      (1 + (sp - 1) * (1/5) : ℚ) ≠ 0 ∧
      calculate_place_return (some sp) (some "4") 8 = some 0) := by
  have hne : s ≠ "" := pyParseNat_ne_empty hparse
  refine ⟨?_, ?_, ?_, ?_, ?_, ?_, ?_⟩
  · intro h16
    have hpt : placeTerms n = some (1/4, 4) := by
      unfold placeTerms; rw [if_pos h16]
    exact place_return_eval hparse hpt
  · intro h12 h15
    have hpt : placeTerms n = some (1/4, 3) := by
      unfold placeTerms
      rw [if_neg (by omega), if_pos h12]
    exact place_return_eval hparse hpt
  · intro h8 h11
    have hpt : placeTerms n = some (1/5, 3) := by
      unfold placeTerms
      rw [if_neg (by omega), if_neg (by omega), if_pos h8]
    exact place_return_eval hparse hpt
  · intro h5 h7
    have hpt : placeTerms n = some (1/4, 2) := by
      unfold placeTerms
      rw [if_neg (by omega), if_neg (by omega), if_neg (by omega), if_pos h5]
    exact place_return_eval hparse hpt
  · intro h5
    have hpt := placeTerms_none h5
    constructor
    · simp only [calculate_place_return]
      rw [if_neg hne, hparse, hpt]
    · simp only [calculate_ew_return]
      rw [if_neg hne, hparse, hpt]

  · intro fr pl hpt
    have hpl2 := placeTerms_pl_ge_two hpt
    refine ⟨?_, ?_, ?_⟩
    · intro hpos1
      have hs1 : s = "1" := hone.mpr hpos1
      refine ⟨?_, ?_, ?_⟩
      · rw [ew_return_eval hparse hpt, if_pos hpos1]
      · rw [win_return_eval hne, if_pos (by rw [hstrip, hs1])]
      · rw [place_return_eval hparse hpt, if_pos (by omega)]
    · intro hpos1 hpospl
      have hne1 : ¬ (pos = 1) := by omega
      refine ⟨?_, ?_, ?_⟩
      · rw [ew_return_eval hparse hpt, place_return_eval hparse hpt,
          if_neg hne1]
      · rw [place_return_eval hparse hpt, if_pos hpospl]
      · rw [win_return_eval hne, hstrip, if_neg]
        intro hs1
        exact absurd (hone.mp hs1) (by omega)
    · intro hplpos
      have hne1 : ¬ (pos = 1) := by omega
      have hnle : ¬ (pos ≤ pl) := by omega
      constructor
      · rw [ew_return_eval hparse hpt, if_neg hne1, if_neg hnle]
      · rw [place_return_eval hparse hpt, if_neg hnle]
  · intro hsp
    have hpt8 : placeTerms 8 = some (1/5, 3) := by norm_num [placeTerms]
    refine ⟨?_, ?_, ?_⟩
    · rw [@place_return_eval sp "3" 3 (by decide) 8 (1/5) 3 hpt8,
        if_pos (by omega)]
    · have : (0 : ℚ) < 1 + (sp - 1) * (1/5) := by linarith
      linarith
    · rw [@place_return_eval sp "4" 4 (by decide) 8 (1/5) 3 hpt8,
        if_neg (by omega)]

/-- C3 witness: the theorem instantiated at `sp = 3`, position string
"3", 8 runners — a concrete 8-runner race where 3rd place returns
`1 + (3 - 1)/5 = 7/5`. -/
theorem C3_place_terms_and_returns_witness :
    calculate_place_return (some 3) (some "3") 8 = some (7/5) := by
  have h := C3_place_terms_and_returns 3 "3" 3 8 (by decide) (by decide)
    (by decide)
  have h3 := h.2.2.1 (by omega) (by omega)
  rw [h3, if_pos (by omega)]
  norm_num

/-- C10 counterexample: the position string " 1" is non-empty and not
numeric (`isdigit` fails because of the leading space), yet the win
return at starting price 2 is 2 — the starting price, not 0 — because
the win check compares the *stripped* string to "1". -/
theorem C10_counterexample :
    (" 1" : String) ≠ "" ∧ pyParseNat " 1" = none ∧
    calculate_sp_win_return (some 2) (some " 1") = some 2 ∧
    calculate_sp_win_return (some 2) (some " 1") ≠ some 0 := by
  have h : calculate_sp_win_return (some 2) (some " 1") = some 2 := by
    rw [win_return_eval (by decide), if_pos (by decide)]
  exact ⟨by decide, by decide, h, by rw [h]; decide⟩

/-- C10 (amended): for a parseable decimal starting price and a
non-empty finishing-position string that is not numeric *and does not
strip to "1"* (e.g. "PU" or "F"), the win return is 0.0 while the
each-way and place returns are both null. -/
theorem C10_nonnumeric_position_returns (sp : ℚ) (n : ℕ) (s : String)
    (hne : s ≠ "") (hnum : pyParseNat s = none) (hnot1 : pyStrip s ≠ "1") :
    calculate_sp_win_return (some sp) (some s) = some 0 ∧
    calculate_ew_return (some sp) (some s) n = none ∧
    calculate_place_return (some sp) (some s) n = none := by
  refine ⟨?_, ?_, ?_⟩
  · rw [win_return_eval hne, if_neg hnot1]
  · simp only [calculate_ew_return]
    rw [if_neg hne, hnum]
  · simp only [calculate_place_return]
    rw [if_neg hne, hnum]

/-- C10 witness: the amended theorem at the "pulled up" position string
"PU". -/
theorem C10_nonnumeric_position_returns_witness :
    calculate_sp_win_return (some 2) (some "PU") = some 0 ∧
    calculate_ew_return (some 2) (some "PU") 8 = none ∧
    calculate_place_return (some 2) (some "PU") 8 = none :=
  C10_nonnumeric_position_returns 2 8 "PU" (by decide) (by decide) (by decide)

lemma findFirstIndex_sorted {L : List ℚ} (hs : L.Sorted (· < ·)) (q : ℚ) :
    ∀ k, findFirstIndex q L k =
      if q ∈ L then some (k + (L.filter (fun x => x < q)).length) else none := by
  induction L with
  | nil => intro k; simp [findFirstIndex]
  | cons x xs ih =>
    intro k
    have hx : ∀ y ∈ xs, x < y := (List.sorted_cons.mp hs).1
    have hs' : xs.Sorted (· < ·) := (List.sorted_cons.mp hs).2
    by_cases hqx : q = x
    · subst hqx
      have hfx : xs.filter (fun y => decide (y < q)) = [] :=
        List.filter_eq_nil_iff.mpr fun y hy => by
          simp only [decide_eq_true_eq, not_lt]
          exact (hx y hy).le
      simp [findFirstIndex, hfx]
    · simp only [findFirstIndex, if_neg hqx]
      rw [ih hs' (k + 1)]
      by_cases hmem : q ∈ xs
      · have hxq : x < q := hx q hmem
        rw [if_pos hmem, if_pos (List.mem_cons_of_mem _ hmem),
          List.filter_cons_of_pos (by simpa using hxq)]
        simp only [List.length_cons]
        congr 1
        omega
      · rw [if_neg hmem, if_neg (by simp [hqx, hmem])]

/-- Full characterization of `calculate_sp_favorite_position` for a
present current price: the rank is one plus the number of distinct valid
starting prices strictly below the runner's price (its position in the
ascending order of distinct prices), and `none` when the price does not
occur among the runners' valid prices. -/
lemma calc_fav_spec (runners : List (Option ℚ)) (q : ℚ) :
    calculate_sp_favorite_position runners (some q) =
      if q ∈ runners.filterMap id then
        some (1 + (((runners.filterMap id).dedup.filter
          (fun x => x < q)).length))
      else none := by
  cases runners with
  | nil => simp [calculate_sp_favorite_position]
  | cons a rs =>
    simp only [calculate_sp_favorite_position]
    by_cases hemp : ((a :: rs).filterMap id).isEmpty
    · have hnil : (a :: rs).filterMap id = [] := by
        simpa [List.isEmpty_iff] using hemp
      simp [hemp, hnil]
    · simp only [hemp, Bool.false_eq_true, if_false]
      have hsorted_le :
          (((a :: rs).filterMap id).dedup.mergeSort
            (fun a b => a ≤ b)).Sorted (· ≤ ·) :=
        List.sorted_mergeSort' _
      have hnd : (((a :: rs).filterMap id).dedup.mergeSort
          (fun a b => a ≤ b)).Nodup :=
        (List.mergeSort_perm _ _).symm.nodup
          (List.nodup_dedup _)
      have hlt := hsorted_le.lt_of_le hnd
      rw [findFirstIndex_sorted hlt q 1]
      have hmem : q ∈ ((a :: rs).filterMap id).dedup.mergeSort
          (fun a b => a ≤ b) ↔ q ∈ (a :: rs).filterMap id := by
        rw [List.mem_mergeSort, List.mem_dedup]
      have hlen : ((((a :: rs).filterMap id).dedup.mergeSort
            (fun a b => a ≤ b)).filter (fun x => x < q)).length =
          (((a :: rs).filterMap id).dedup.filter (fun x => x < q)).length :=
        ((List.mergeSort_perm _ _).filter _).length_eq
      rw [hlen]
      by_cases hq : q ∈ (a :: rs).filterMap id
      · rw [if_pos (hmem.mpr hq), if_pos hq]
      · rw [if_neg (fun h => hq (hmem.mp h)), if_neg hq]

/-- C5: the favorite rank of a runner with a parseable decimal starting
price is the price's position in the ascending order of (distinct)
starting prices: one plus the number of distinct valid prices strictly
below it; the lowest price gets rank 1; numerically equal prices get the
same rank; and for starting prices [2.0, 2.0, 4.0] the runners priced
2.0 both get rank 1 (the runner priced 4.0 gets rank 2). -/
theorem C5_favorite_rank (runners : List (Option ℚ)) (q : ℚ) :
    (∀ r, calculate_sp_favorite_position runners (some q) = some r →
        q ∈ runners.filterMap id ∧
        r = 1 + (((runners.filterMap id).dedup.filter
          (fun x => x < q)).length)) ∧
    (q ∈ runners.filterMap id →
        calculate_sp_favorite_position runners (some q) =
          some (1 + (((runners.filterMap id).dedup.filter
            (fun x => x < q)).length))) ∧
    (q ∈ runners.filterMap id → (∀ x ∈ runners.filterMap id, q ≤ x) →
        calculate_sp_favorite_position runners (some q) = some 1) ∧
    (∀ q', q' = q →
        calculate_sp_favorite_position runners (some q') =
          calculate_sp_favorite_position runners (some q)) ∧
    (calculate_sp_favorite_position [some 2, some 2, some 4] (some 2) =
        some 1 ∧
     calculate_sp_favorite_position [some 2, some 2, some 4] (some 4) =
        some 2) := by
  refine ⟨?_, ?_, ?_, ?_, ?_, ?_⟩
  · intro r h
    rw [calc_fav_spec] at h
    by_cases hq : q ∈ runners.filterMap id
    · rw [if_pos hq] at h
      exact ⟨hq, (Option.some_injective _ h.symm)⟩
    · rw [if_neg hq] at h
      exact absurd h (by simp)
  · intro hq
    rw [calc_fav_spec, if_pos hq]
  · intro hq hmin
    rw [calc_fav_spec, if_pos hq]
    have : (runners.filterMap id).dedup.filter (fun x => x < q) = [] :=
      List.filter_eq_nil_iff.mpr fun y hy => by
        simp only [decide_eq_true_eq, not_lt]
        exact hmin y (List.mem_dedup.mp hy)
    rw [this]
    rfl
  · intro q' hq'
    rw [hq']
  · rw [calc_fav_spec]
    decide
  · rw [calc_fav_spec]
    decide

/-- C5 witness: the characterization applied at the concrete price list
[2.0, 2.0, 4.0] for the runner priced 4.0, discharging the membership
hypothesis. -/
theorem C5_favorite_rank_witness :
    calculate_sp_favorite_position [some 2, some 2, some 4] (some 4) =
      some 2 := by
  have h := (C5_favorite_rank [some 2, some 2, some 4] 4).2.1 (by decide)
  rw [h]
  decide

lemma nearestFold_spec (l : List RaceMinutes) :
    ∀ acc : Option ℚ,
      (l.foldl nearestStep acc = none ↔
        acc = none ∧ (l.filterMap id).filter (fun m => -10 ≤ m) = []) ∧
      (∀ m, l.foldl nearestStep acc = some m →
        (m ∈ (l.filterMap id).filter (fun m => -10 ≤ m) ∨ acc = some m) ∧
        (∀ x ∈ (l.filterMap id).filter (fun m => -10 ≤ m), m ≤ x) ∧
        (∀ a, acc = some a → m ≤ a)) := by
  induction l with
  | nil =>
    intro acc
    constructor
    · simp
    · intro m hm
      simp only [List.foldl_nil] at hm
      refine ⟨Or.inr hm, by simp, fun a ha => ?_⟩
      rw [hm] at ha
      injection ha with h
      exact le_of_eq h
  | cons h t ih =>
    intro acc
    cases h with
    | none =>
      simpa using ih acc
    | some v =>
      by_cases hv : v < -10
      · have hstep : nearestStep acc (some v) = acc := by
          simp [nearestStep, hv]
        have hfil : ¬ (-10 : ℚ) ≤ v := by linarith
        simpa [hstep, hfil] using ih acc
      · have hfil : (-10 : ℚ) ≤ v := by linarith
        have hfilter :
            ((some v :: t).filterMap id).filter (fun m => decide (-10 ≤ m)) =
              v :: (t.filterMap id).filter (fun m => decide (-10 ≤ m)) := by
          simp [hfil]
        rw [show (some v :: t).foldl nearestStep acc =
            t.foldl nearestStep (nearestStep acc (some v)) from rfl, hfilter]
        cases acc with
        | none =>
          have hstep : nearestStep none (some v) = some v := by
            simp [nearestStep, hv]
          rw [hstep]
          constructor
          · constructor
            · intro hnone
              rcases ((ih _).1).mp hnone with ⟨hacc, -⟩
              simp at hacc
            · rintro ⟨-, habs⟩
              simp at habs
          · intro m hm
            obtain ⟨hd, hall, hacc'⟩ := (ih _).2 m hm
            have hmv : m ≤ v := hacc' v rfl
            refine ⟨?_, ?_, ?_⟩
            · rcases hd with hd | hd
              · exact Or.inl (List.mem_cons_of_mem _ hd)
              · injection hd with h
                subst h
                exact Or.inl (List.mem_cons_self _ _)
            · intro x hx
              rcases List.mem_cons.mp hx with rfl | hx
              · exact hmv
              · exact hall x hx
            · intro a ha
              simp at ha
        | some mm =>
          have hstep : nearestStep (some mm) (some v) =
              if v < mm then some v else some mm := by
            simp [nearestStep, hv]
          rw [hstep]
          by_cases hvm : v < mm
          · rw [if_pos hvm]
            constructor
            · constructor
              · intro hnone
                rcases ((ih _).1).mp hnone with ⟨hacc, -⟩
                simp at hacc
              · rintro ⟨-, habs⟩
                simp at habs
            · intro m hm
              obtain ⟨hd, hall, hacc'⟩ := (ih _).2 m hm
              have hmv : m ≤ v := hacc' v rfl
              refine ⟨?_, ?_, ?_⟩
              · rcases hd with hd | hd
                · exact Or.inl (List.mem_cons_of_mem _ hd)
                · injection hd with h
                  subst h
                  exact Or.inl (List.mem_cons_self _ _)
              · intro x hx
                rcases List.mem_cons.mp hx with rfl | hx
                · exact hmv
                · exact hall x hx
              · intro a ha
                injection ha with h
                subst h
                linarith
          · rw [if_neg hvm]
            push_neg at hvm
            constructor
            · constructor
              · intro hnone
                rcases ((ih _).1).mp hnone with ⟨hacc, -⟩
                simp at hacc
              · rintro ⟨-, habs⟩
                simp at habs
            · intro m hm
              obtain ⟨hd, hall, hacc'⟩ := (ih _).2 m hm
              have hmm : m ≤ mm := hacc' mm rfl
              have hmv : m ≤ v := le_trans hmm hvm
              refine ⟨?_, ?_, ?_⟩
              · rcases hd with hd | hd
                · exact Or.inl (List.mem_cons_of_mem _ hd)
                · exact Or.inr hd
              · intro x hx
                rcases List.mem_cons.mp hx with rfl | hx
                · exact hmv
                · exact hall x hx
              · intro a ha
                injection ha with h
                subst h
                exact hmm

lemma nearestMinutes_spec (races : List RaceMinutes) :
    (nearestMinutes races = none ↔
      (races.filterMap id).filter (fun m => -10 ≤ m) = []) ∧
    (∀ m, nearestMinutes races = some m →
      m ∈ (races.filterMap id).filter (fun m => -10 ≤ m) ∧
      ∀ x ∈ (races.filterMap id).filter (fun m => -10 ≤ m), m ≤ x) := by
  obtain ⟨h1, h2⟩ := nearestFold_spec races none
  constructor
  · simpa [nearestMinutes] using h1
  · intro m hm
    obtain ⟨hd, hall, -⟩ := h2 m (by simpa [nearestMinutes] using hm)
    refine ⟨?_, hall⟩
    rcases hd with hd | hd
    · exact hd
    · simp at hd

/-- C6: the chosen polling delay is a function of the minimum
minutes-until-start `m` over races not excluded by the 10-minute grace
window (races with `minutes_until_start < -10` are excluded): `m ≤ 5`
gives 10 seconds, `5 < m ≤ 30` gives 60, `30 < m ≤ 120` gives 300,
`m > 120` gives 900, and an empty race set or an all-excluded race set
gives the 900-second default. -/
theorem C6_optimal_interval (races : List RaceMinutes) :
    ((races.filterMap id).filter (fun m => -10 ≤ m) = [] →
        get_optimal_interval races = 900) ∧
    (∀ m, m ∈ (races.filterMap id).filter (fun m => -10 ≤ m) →
        (∀ x ∈ (races.filterMap id).filter (fun m => -10 ≤ m), m ≤ x) →
        ((m ≤ 5 → get_optimal_interval races = 10) ∧
         (5 < m → m ≤ 30 → get_optimal_interval races = 60) ∧
         (30 < m → m ≤ 120 → get_optimal_interval races = 300) ∧
         (120 < m → get_optimal_interval races = 900))) := by
  obtain ⟨hnone, hsome⟩ := nearestMinutes_spec races
  constructor
  · intro hnil
    cases races with
    | nil => rfl
    | cons a rs =>
      simp only [get_optimal_interval]
      rw [hnone.mpr hnil]
      rfl
  · intro m hm hmin
    cases races with
    | nil => simp at hm
    | cons a rs =>
      simp only [get_optimal_interval]
      rcases hres : nearestMinutes (a :: rs) with - | m'
      · rw [hnone.mp hres] at hm
        simp at hm
      · obtain ⟨hm', hall⟩ := hsome m' hres
        have : m' = m := le_antisymm (hall m hm) (hmin m' hm')
        subst this
        refine ⟨?_, ?_, ?_, ?_⟩
        · intro h5
          show (if m' ≤ THRESHOLD_IMMINENT then INTERVAL_IMMINENT
                else if m' ≤ THRESHOLD_SOON then INTERVAL_SOON
                else if m' ≤ THRESHOLD_UPCOMING then INTERVAL_UPCOMING
                else INTERVAL_CHECK) = _
          rw [if_pos (show m' ≤ THRESHOLD_IMMINENT from h5)]
          rfl
        · intro h5 h30
          show (if m' ≤ THRESHOLD_IMMINENT then INTERVAL_IMMINENT
                else if m' ≤ THRESHOLD_SOON then INTERVAL_SOON
                else if m' ≤ THRESHOLD_UPCOMING then INTERVAL_UPCOMING
                else INTERVAL_CHECK) = _
          rw [if_neg (show ¬ m' ≤ THRESHOLD_IMMINENT by
              simp only [THRESHOLD_IMMINENT]; linarith),
            if_pos (show m' ≤ THRESHOLD_SOON from h30)]
          rfl
        · intro h30 h120
          show (if m' ≤ THRESHOLD_IMMINENT then INTERVAL_IMMINENT
                else if m' ≤ THRESHOLD_SOON then INTERVAL_SOON
                else if m' ≤ THRESHOLD_UPCOMING then INTERVAL_UPCOMING
                else INTERVAL_CHECK) = _
          rw [if_neg (show ¬ m' ≤ THRESHOLD_IMMINENT by
              simp only [THRESHOLD_IMMINENT]; linarith),
            if_neg (show ¬ m' ≤ THRESHOLD_SOON by
              simp only [THRESHOLD_SOON]; linarith),
            if_pos (show m' ≤ THRESHOLD_UPCOMING from h120)]
          rfl
        · intro h120
          show (if m' ≤ THRESHOLD_IMMINENT then INTERVAL_IMMINENT
                else if m' ≤ THRESHOLD_SOON then INTERVAL_SOON
                else if m' ≤ THRESHOLD_UPCOMING then INTERVAL_UPCOMING
                else INTERVAL_CHECK) = _
          rw [if_neg (show ¬ m' ≤ THRESHOLD_IMMINENT by
              simp only [THRESHOLD_IMMINENT]; linarith),
            if_neg (show ¬ m' ≤ THRESHOLD_SOON by
              simp only [THRESHOLD_SOON]; linarith),
            if_neg (show ¬ m' ≤ THRESHOLD_UPCOMING by
              simp only [THRESHOLD_UPCOMING]; linarith)]
          rfl

/-- C6 witness: a race set with nearest eligible race 100 minutes out
(one race with no start time, one already started 50 minutes ago) polls
every 300 seconds. -/
theorem C6_optimal_interval_witness :
    get_optimal_interval [some 100, some 200, none, some (-50)] = 300 := by
  have h := (C6_optimal_interval [some 100, some 200, none, some (-50)]).2
    100 (by norm_num) ?_
  · exact h.2.2.1 (by norm_num) (by norm_num)
  · intro x hx
    simp only [List.filterMap, List.filter] at hx
    norm_num at hx
    rcases hx with rfl | rfl <;> norm_num

lemma runLoop_fetch_lt (iters : List Iteration) :
    ∀ errs e, Event.fetch e ∈ runLoop errs iters →
      e < max_consecutive_errors := by
  induction iters with
  | nil =>
    intro errs e he
    simp [runLoop] at he
  | cons it rest ih =>
    intro errs e he
    by_cases h5 : max_consecutive_errors ≤ errs
    · rw [runLoop, if_pos h5] at he
      simp at he
    · rw [runLoop, if_neg h5] at he
      push_neg at h5
      cases hoc : it.outcome <;> rw [hoc] at he
      · rcases List.mem_cons.mp he with h | he
        · cases h
        · rcases List.mem_cons.mp he with h | he
          · injection h with h
            omega
          · exact ih _ e he
      · rcases List.mem_cons.mp he with h | he
        · cases h
        · rcases List.mem_cons.mp he with h | he
          · injection h with h
            omega
          · exact ih _ e he
      · rcases List.mem_cons.mp he with h | he
        · cases h
        · exact ih _ e he

/-- C7 counterexample: in the continuous loop, an exception inside a
fetch cycle (caught by `run_fetch_cycle` itself) is retried after the
*computed* interval of the next iteration — here 300 seconds for a race
100 minutes out — not after the fixed 60-second backoff the claim
asserts. -/
theorem C7_counterexample :
    run_continuous false
        [⟨[some 100], Outcome.cycleRaise⟩, ⟨[some 100], Outcome.cycleOk⟩] =
      [Event.fetch 0, Event.sleep 300, Event.fetch 0, Event.sleep 300,
       Event.fetch 1] ∧
    get_optimal_interval [some 100] = 300 ∧ (300 : ℕ) ≠ 60 := by
  have h300 : get_optimal_interval [some 100] = 300 := by
    have hnm : nearestMinutes [some 100] = some 100 := by
      simp only [nearestMinutes, List.foldl, nearestStep]
      norm_num
    simp only [get_optimal_interval, hnm]
    norm_num [THRESHOLD_IMMINENT, THRESHOLD_SOON, THRESHOLD_UPCOMING,
      INTERVAL_UPCOMING]
  refine ⟨?_, h300, by omega⟩
  simp only [run_continuous, run_fetch_cycle, runLoop,
    max_consecutive_errors, h300]
  norm_num

/-- C7 (amended): an exception during a fetch cycle increments the
consecutive-failure counter (any successful cycle resets it to zero) and
the loop then retries after the next iteration's *computed* interval —
the fixed 60-second backoff applies only to exceptions escaping the loop
body outside `run_fetch_cycle`; once the counter reaches the maximum of
5 the loop halts, and no fetch cycle ever starts with the counter at or
above 5. -/
theorem C7_failure_handling (errs : ℕ) (iters : List Iteration) :
    (∀ e, Event.fetch e ∈ runLoop errs iters →
        e < max_consecutive_errors) ∧
    (∀ it rest, iters = it :: rest → max_consecutive_errors ≤ errs →
        runLoop errs iters = [Event.halt]) ∧
    (∀ it rest, iters = it :: rest → errs < max_consecutive_errors →
        (it.outcome = Outcome.cycleRaise →
          runLoop errs iters =
            Event.sleep (get_optimal_interval it.races) ::
              Event.fetch errs :: runLoop (errs + 1) rest) ∧
        (it.outcome = Outcome.cycleOk →
          runLoop errs iters =
            Event.sleep (get_optimal_interval it.races) ::
              Event.fetch errs :: runLoop 0 rest) ∧
        (it.outcome = Outcome.loopRaise →
          runLoop errs iters = Event.sleep 60 :: runLoop (errs + 1) rest)) ∧
    (∀ c, run_fetch_cycle false c = (true, 0) ∧
        run_fetch_cycle true c = (false, c + 1)) := by
  refine ⟨runLoop_fetch_lt iters errs, ?_, ?_, fun c => ⟨rfl, rfl⟩⟩
  · rintro it rest rfl h5
    rw [runLoop, if_pos h5]
  · rintro it rest rfl h5
    have h5' : ¬ max_consecutive_errors ≤ errs := by omega
    refine ⟨?_, ?_, ?_⟩ <;> intro hoc <;>
      rw [runLoop, if_neg h5', hoc] <;> rfl

/-- C7 witness: the amended theorem applied to a one-iteration trace
whose fetch cycle raises, starting from a zero counter. -/
theorem C7_failure_handling_witness :
    runLoop 0 [⟨[], Outcome.cycleRaise⟩] =
      [Event.sleep (get_optimal_interval []), Event.fetch 0] := by
  have h := (C7_failure_handling 0 [⟨[], Outcome.cycleRaise⟩]).2.2.1
    ⟨[], Outcome.cycleRaise⟩ [] rfl
    (by norm_num [max_consecutive_errors])
  rw [h.1 rfl]
  rfl

/-- C8 counterexample: with the scheduler started 21 days after
January 1 of the start year (so 21 calendar days through today, 20
through yesterday) and 19 distinct dates persisted, the claim's
through-yesterday criterion is met (19 ≥ 95% of 20) yet the code
declares the backfill incomplete, because `total_dates` counts through
*today* (19 < 95% of 21 = 19.95). -/
theorem C8_counterexample :
    (is_backfill_complete
        { backfill_complete := false, dates_processed := 0,
          last_date_processed := none, started_at := "",
          completed_at := none }
        19 (total_dates 20 0) "").1 = false ∧
    claimCompletionThroughYesterday 19 20 0 := by
  constructor
  · simp only [is_backfill_complete, total_dates]
    norm_num
  · simp only [claimCompletionThroughYesterday]
    norm_num

/-- C8 (amended): the tracker declares completion exactly when the
number of distinct dates with persisted data is at least 95% of the
calendar days from January 1 of the start year through *today* (the day
of scheduler initialization) inclusive; once the completion flag is set
it is never cleared — `is_backfill_complete` then returns true without
consulting the store. -/
theorem C8_backfill_completion (st : BackfillState) (count : ℕ)
    (today jan1 : ℤ) (now_iso : String) :
    ((is_backfill_complete st count (total_dates today jan1) now_iso).1 =
        true ↔
      (st.backfill_complete = true ∨
        ((total_dates today jan1 : ℚ) * (95/100) ≤ (count : ℚ)))) ∧
    (st.backfill_complete = true →
      ∀ c, is_backfill_complete st c (total_dates today jan1) now_iso =
        (true, st)) ∧
    ((is_backfill_complete st count (total_dates today jan1)
        now_iso).2.backfill_complete =
      (is_backfill_complete st count (total_dates today jan1) now_iso).1) ∧
    total_dates today jan1 = today - jan1 + 1 := by
  cases hflag : st.backfill_complete
  · by_cases hth :
        ((total_dates today jan1 : ℚ) * (95/100) ≤ (count : ℚ))
    · refine ⟨?_, ?_, ?_, rfl⟩
      · simp [is_backfill_complete, hflag, ge_iff_le, hth]
      · intro habs
        simp at habs
      · simp [is_backfill_complete, hflag, ge_iff_le, hth]
    · refine ⟨?_, ?_, ?_, rfl⟩
      · simp [is_backfill_complete, hflag, ge_iff_le, hth]
      · intro habs
        simp at habs
      · simp [is_backfill_complete, hflag, ge_iff_le, hth]
  · refine ⟨?_, ?_, ?_, rfl⟩
    · simp [is_backfill_complete, hflag]
    · intro _ c
      simp [is_backfill_complete, hflag]
    · simp [is_backfill_complete, hflag]

/-- C8 witness: the amended theorem applied at a state whose completion
flag is already set — the result is `true` and the state is untouched,
whatever the store-derived count says. -/
theorem C8_backfill_completion_witness :
    is_backfill_complete
        { backfill_complete := true, dates_processed := 5,
          last_date_processed := none, started_at := "s",
          completed_at := some "c" }
        0 (total_dates 10 0) "now" =
      (true,
       { backfill_complete := true, dates_processed := 5,
         last_date_processed := none, started_at := "s",
         completed_at := some "c" }) :=
  (C8_backfill_completion _ 0 10 0 "now").2.1 rfl 0

lemma foldl_max_init_le (db : List Row) :
    ∀ init : ℕ,
      init ≤ db.foldl (fun m row => max m row.racing_bet_data_id) init := by
  induction db with
  | nil => intro init; exact le_refl _
  | cons a t ih =>
    intro init
    exact le_trans (le_max_left _ _) (ih (max init a.racing_bet_data_id))

lemma freshId_gt (db : List Row) :
    ∀ row ∈ db, row.racing_bet_data_id < freshId db := by
  have key : ∀ (t : List Row) (init : ℕ) (row : Row), row ∈ t →
      row.racing_bet_data_id ≤
        t.foldl (fun m r => max m r.racing_bet_data_id) init := by
    intro t
    induction t with
    | nil => intro init row h; simp at h
    | cons a s ih =>
      intro init row h
      rcases List.mem_cons.mp h with rfl | h
      · exact le_trans (le_max_right init _)
          (foldl_max_init_le s (max init row.racing_bet_data_id))
      · exact ih _ row h
  intro row h
  have := key db 0 row h
  unfold freshId
  omega

lemma freshId_pos (db : List Row) : 0 < freshId db := by
  unfold freshId
  omega

/-- C9 counterexample: a stored row and an incoming mapped record that
agree on date, track and horse name but carry different scheduled race
times.  The claim's natural key includes the race time, so the upsert
should see no existing row and insert; the code's existence check
ignores the race time, matches the stored row, and updates it instead —
`check_exists` even returns the row despite the time mismatch. -/
theorem C9_counterexample :
    (Row.mk 1 "2023-05-01" "ASCOT" "14:00" "DOBBIN").race_time ≠
      (MappedRecord.mk "2023-05-01" "ASCOT" "15:30" (some "DOBBIN")).race_time ∧
    check_exists [Row.mk 1 "2023-05-01" "ASCOT" "14:00" "DOBBIN"]
      "2023-05-01" "ASCOT" "15:30" "DOBBIN" = some 1 ∧
    (upsert_odds [Row.mk 1 "2023-05-01" "ASCOT" "14:00" "DOBBIN"]
      (MappedRecord.mk "2023-05-01" "ASCOT" "15:30"
        (some "DOBBIN"))).2.2 = UpsertAction.updated 1 ∧
    ((upsert_odds [Row.mk 1 "2023-05-01" "ASCOT" "14:00" "DOBBIN"]
      (MappedRecord.mk "2023-05-01" "ASCOT" "15:30"
        (some "DOBBIN"))).2.1).length = 1 := by
  refine ⟨by decide, by decide, by decide, by decide⟩

lemma upsert_insert_eq (db : List Row) (r : MappedRecord) (horse : String)
    (hh : r.horse_name = some horse) (hne : horse ≠ "")
    (hfind : db.find? (fun row =>
      rowMatches row r.date_of_race r.track horse) = none) :
    upsert_odds db r =
      (true,
       db ++ [Row.mk (freshId db) r.date_of_race r.track r.race_time horse],
       UpsertAction.inserted (freshId db)) := by
  simp only [upsert_odds, hh, if_neg hne, check_exists, hfind]
  rfl

lemma upsert_update_eq (db : List Row) (r : MappedRecord) (horse : String)
    (hh : r.horse_name = some horse) (hne : horse ≠ "") (row0 : Row)
    (hfind : db.find? (fun row =>
      rowMatches row r.date_of_race r.track horse) = some row0)
    (hz0 : row0.racing_bet_data_id ≠ 0) :
    upsert_odds db r =
      (true,
       db.map (fun row =>
         if row.racing_bet_data_id = row0.racing_bet_data_id then
           { row with date_of_race := r.date_of_race, track := r.track,
                      race_time := r.race_time, horse_name := horse }
         else row),
       UpsertAction.updated row0.racing_bet_data_id) := by
  simp only [upsert_odds, hh, if_neg hne, check_exists, hfind,
    Option.map_some']
  rw [if_neg hz0]

/-- C9 (amended): persistence performs an existence check on the
natural key (date of race, track, horse name) — the scheduled race time
is passed to the check but not consulted — and the write is an update
of the found row when a match exists and an insert of a new row
otherwise; for a mapped record (whose track the schema mapper has
uppercased) whose key is absent from the table, two successive upserts
of the record leave exactly one row for that natural key. -/
theorem C9_upsert_natural_key (db : List Row) (r : MappedRecord)
    (horse : String) (hh : r.horse_name = some horse) (hne : horse ≠ "")
    (hz : ∀ row ∈ db, row.racing_bet_data_id ≠ 0)
    (hupper : pyUpper r.track = r.track) :
    (db.find? (fun row => rowMatches row r.date_of_race r.track horse) =
        none →
      upsert_odds db r =
        (true,
         db ++ [Row.mk (freshId db) r.date_of_race r.track r.race_time horse],
         UpsertAction.inserted (freshId db))) ∧
    (∀ row0,
      db.find? (fun row => rowMatches row r.date_of_race r.track horse) =
          some row0 →
      upsert_odds db r =
        (true,
         db.map (fun row =>
           if row.racing_bet_data_id = row0.racing_bet_data_id then
             { row with date_of_race := r.date_of_race, track := r.track,
                        race_time := r.race_time, horse_name := horse }
           else row),
         UpsertAction.updated row0.racing_bet_data_id)) ∧
    (db.countP (fun row => rowMatches row r.date_of_race r.track horse) = 0 →
      ((upsert_odds db r).2.1).countP
          (fun row => rowMatches row r.date_of_race r.track horse) = 1 ∧
      ((upsert_odds (upsert_odds db r).2.1 r).2.1).countP
          (fun row => rowMatches row r.date_of_race r.track horse) = 1 ∧
      ((upsert_odds (upsert_odds db r).2.1 r).2.1).length =
        ((upsert_odds db r).2.1).length) := by
  have hmatch_new : rowMatches
      (Row.mk (freshId db) r.date_of_race r.track r.race_time horse)
      r.date_of_race r.track horse = true := by
    simp [rowMatches, hupper]
  refine ⟨upsert_insert_eq db r horse hh hne, ?_, ?_⟩
  · intro row0 hfind
    exact upsert_update_eq db r horse hh hne row0 hfind
      (hz row0 (List.mem_of_find?_eq_some hfind))
  · intro hzero
    have hfind :
        db.find? (fun row => rowMatches row r.date_of_race r.track horse) =
          none :=
      List.find?_eq_none.mpr fun x hx => by
        have := List.countP_eq_zero.mp hzero x hx
        simpa using this
    rw [upsert_insert_eq db r horse hh hne hfind]
    have hcount1 :
        (db ++ [Row.mk (freshId db) r.date_of_race r.track r.race_time
            horse]).countP
          (fun row => rowMatches row r.date_of_race r.track horse) = 1 := by
      rw [List.countP_append, hzero]
      simp [hmatch_new]
    refine ⟨hcount1, ?_⟩
    have hfind2 :
        (db ++ [Row.mk (freshId db) r.date_of_race r.track r.race_time
            horse]).find?
          (fun row => rowMatches row r.date_of_race r.track horse) =
          some (Row.mk (freshId db) r.date_of_race r.track r.race_time
            horse) := by
      rw [List.find?_append, hfind]
      simp [hmatch_new]
    rw [upsert_update_eq _ r horse hh hne _ hfind2
      (by show freshId db ≠ 0
          have h := freshId_pos db
          omega)]
    have hmap :
        (db ++ [Row.mk (freshId db) r.date_of_race r.track r.race_time
            horse]).map
          (fun row =>
            if row.racing_bet_data_id = freshId db then
              { row with date_of_race := r.date_of_race, track := r.track,
                         race_time := r.race_time, horse_name := horse }
            else row) =
          db ++ [Row.mk (freshId db) r.date_of_race r.track r.race_time
            horse] := by
      rw [List.map_append]
      congr 1
      · have hid : db.map (fun row =>
            if row.racing_bet_data_id = freshId db then
              { row with date_of_race := r.date_of_race, track := r.track,
                         race_time := r.race_time, horse_name := horse }
            else row) = db.map id :=
          List.map_congr_left fun row hrow => by
            rw [if_neg (Nat.ne_of_lt (freshId_gt db row hrow))]
            rfl
        rw [hid, List.map_id]
      · simp
    rw [hmap]
    exact ⟨hcount1, rfl⟩

/-- C9 witness: the amended theorem at a concrete empty table and one
mapped record — the first upsert inserts, and the second upsert leaves a
single row for the natural key. -/
theorem C9_upsert_natural_key_witness :
    ((upsert_odds [] (MappedRecord.mk "2023-05-01" "ASCOT" "15:30"
        (some "DOBBIN"))).2.1).countP
      (fun row => rowMatches row "2023-05-01" "ASCOT" "DOBBIN") = 1 ∧
    ((upsert_odds
        (upsert_odds [] (MappedRecord.mk "2023-05-01" "ASCOT" "15:30"
          (some "DOBBIN"))).2.1
        (MappedRecord.mk "2023-05-01" "ASCOT" "15:30"
          (some "DOBBIN"))).2.1).countP
      (fun row => rowMatches row "2023-05-01" "ASCOT" "DOBBIN") = 1 := by
  have h := (C9_upsert_natural_key []
    (MappedRecord.mk "2023-05-01" "ASCOT" "15:30" (some "DOBBIN"))
    "DOBBIN" rfl (by decide) (by intro row hrow; simp at hrow)
    (by decide)).2.2 (by decide)
  exact ⟨h.1, h.2.1⟩

lemma joinRunners_eq (rid : String) (res : RaceResult)
    (rm : List (String × ResultRunner)) (runners : List RacecardRunner) :
    ∀ acc, joinRunners rid res rm acc runners =
      acc ++ runners.filterMap (runnerRecord rid res rm) := by
  induction runners with
  | nil => intro acc; simp [joinRunners]
  | cons u us ih =>
    intro acc
    show joinRunners rid res rm
        (match truthyStr u.horse_id with
         | none => acc
         | some hid =>
           match dictGet rm hid with
           | none => acc
           | some rr => acc ++ [mkJoined rid res u rr]) us =
      acc ++ (u :: us).filterMap (runnerRecord rid res rm)
    cases htr : truthyStr u.horse_id with
    | none =>
      rw [ih acc]
      congr 1
      simp [List.filterMap_cons, runnerRecord, htr]
    | some hid =>
      cases hg : dictGet rm hid with
      | none =>
        show joinRunners rid res rm
            (match dictGet rm hid with
             | none => acc
             | some rr => acc ++ [mkJoined rid res u rr]) us = _
        rw [hg, ih acc]
        congr 1
        simp [List.filterMap_cons, runnerRecord, htr, hg]
      | some rr =>
        show joinRunners rid res rm
            (match dictGet rm hid with
             | none => acc
             | some rr => acc ++ [mkJoined rid res u rr]) us = _
        rw [hg, ih (acc ++ [mkJoined rid res u rr])]
        rw [List.append_assoc]
        congr 1
        simp [List.filterMap_cons, runnerRecord, htr, hg]

lemma join_eq (racecards : List Racecard) (results : List RaceResult) :
    join_racecards_and_results racecards results =
      racecards.flatMap (racecardRecords results) := by
  suffices h : ∀ acc : List JoinedRecord,
      racecards.foldl
        (fun acc c =>
          match truthyStr c.race_id with
          | none => acc
          | some rid =>
            match dictGet (resultsByRace results) rid with
            | none => acc
            | some res =>
              joinRunners rid res (runnersByHorse res.runners) acc
                c.runners)
        acc =
      acc ++ racecards.flatMap (racecardRecords results) by
    simpa [join_racecards_and_results] using h []
  induction racecards with
  | nil => intro acc; simp
  | cons c cs ih =>
    intro acc
    rw [List.flatMap_cons]
    show List.foldl _
        (match truthyStr c.race_id with
         | none => acc
         | some rid =>
           match dictGet (resultsByRace results) rid with
           | none => acc
           | some res =>
             joinRunners rid res (runnersByHorse res.runners) acc
               c.runners) cs = _
    cases hrid : truthyStr c.race_id with
    | none =>
      have hcard : racecardRecords results c = [] := by
        simp [racecardRecords, hrid]
      rw [hcard]
      simpa using ih acc
    | some rid =>
      show List.foldl _
          (match dictGet (resultsByRace results) rid with
           | none => acc
           | some res =>
             joinRunners rid res (runnersByHorse res.runners) acc
               c.runners) cs = _
      cases hres : dictGet (resultsByRace results) rid with
      | none =>
        have hcard : racecardRecords results c = [] := by
          simp [racecardRecords, hrid, hres]
        rw [hcard]
        simpa using ih acc
      | some res =>
        have hcard : racecardRecords results c =
            c.runners.filterMap
              (runnerRecord rid res (runnersByHorse res.runners)) := by
          simp [racecardRecords, hrid, hres]
        rw [hcard]
        exact (ih (joinRunners rid res (runnersByHorse res.runners) acc
            c.runners)).trans
          (by rw [joinRunners_eq rid res (runnersByHorse res.runners)
              c.runners acc, List.append_assoc])

/-- C4: the historical join is total — it equals, racecard by racecard,
the per-racecard contribution function (unmatched racecards, racecards
with a falsy race id, and unmatched or id-less runners contribute
nothing, without error), and every racecard runner whose race id is
matched by a result and whose horse id is matched by a runner of that
result yields exactly its one joined record, which appears in the
output. -/
theorem C4_join_completeness (racecards : List Racecard)
    (results : List RaceResult) (c : Racecard) (u : RacecardRunner)
    (rid hid : String) (res : RaceResult) (rr : ResultRunner)
    (hc : c ∈ racecards) (hu : u ∈ c.runners)
    (hrid : truthyStr c.race_id = some rid)
    (hres : dictGet (resultsByRace results) rid = some res)
    (hhid : truthyStr u.horse_id = some hid)
    (hrr : dictGet (runnersByHorse res.runners) hid = some rr) :
    join_racecards_and_results racecards results =
      racecards.flatMap (racecardRecords results) ∧
    racecardRecords results c =
      c.runners.filterMap
        (runnerRecord rid res (runnersByHorse res.runners)) ∧
    runnerRecord rid res (runnersByHorse res.runners) u =
      some (mkJoined rid res u rr) ∧
    mkJoined rid res u rr ∈ join_racecards_and_results racecards results := by
  have hcard : racecardRecords results c =
      c.runners.filterMap
        (runnerRecord rid res (runnersByHorse res.runners)) := by
    simp [racecardRecords, hrid, hres]
  have hrun : runnerRecord rid res (runnersByHorse res.runners) u =
      some (mkJoined rid res u rr) := by
    simp [runnerRecord, hhid, hrr]
  refine ⟨join_eq racecards results, hcard, hrun, ?_⟩
  rw [join_eq racecards results]
  refine List.mem_flatMap.mpr ⟨c, hc, ?_⟩
  rw [hcard]
  exact List.mem_filterMap.mpr ⟨u, hu, hrun⟩

/-- C4 witness: a one-race, one-runner matched pair produces exactly its
joined record. -/
theorem C4_join_completeness_witness :
    mkJoined "r1" (RaceResult.mk "r1" (some "2024-01-01") (some "AYR")
        (some "The Cup") [ResultRunner.mk "h1" (some "Dobbin") (some "1")
          (some "2.5")])
      (RacecardRunner.mk (some "h1") [some 3] (some "11-1") (some "ok"))
      (ResultRunner.mk "h1" (some "Dobbin") (some "1") (some "2.5")) ∈
      join_racecards_and_results
        [Racecard.mk (some "r1")
          [RacecardRunner.mk (some "h1") [some 3] (some "11-1") (some "ok")]]
        [RaceResult.mk "r1" (some "2024-01-01") (some "AYR")
          (some "The Cup") [ResultRunner.mk "h1" (some "Dobbin") (some "1")
            (some "2.5")]] := by
  have h := C4_join_completeness
    [Racecard.mk (some "r1")
      [RacecardRunner.mk (some "h1") [some 3] (some "11-1") (some "ok")]]
    [RaceResult.mk "r1" (some "2024-01-01") (some "AYR") (some "The Cup")
      [ResultRunner.mk "h1" (some "Dobbin") (some "1") (some "2.5")]]
    (Racecard.mk (some "r1")
      [RacecardRunner.mk (some "h1") [some 3] (some "11-1") (some "ok")])
    (RacecardRunner.mk (some "h1") [some 3] (some "11-1") (some "ok"))
    "r1" "h1"
    (RaceResult.mk "r1" (some "2024-01-01") (some "AYR") (some "The Cup")
      [ResultRunner.mk "h1" (some "Dobbin") (some "1") (some "2.5")])
    (ResultRunner.mk "h1" (some "Dobbin") (some "1") (some "2.5"))
    (by decide) (by decide) (by decide) (by decide) (by decide) (by decide)
  exact h.2.2.2

lemma find?_map_overwrite_self {α β : Type} [DecidableEq α]
    (m : List (α × β)) (k : α) (v : β) (hmem : ∃ p ∈ m, p.1 = k) :
    (m.map (fun p => if p.1 = k then (k, v) else p)).find?
      (fun p => p.1 = k) = some (k, v) := by
  induction m with
  | nil => simp at hmem
  | cons p m ih =>
    by_cases hp : p.1 = k
    · simp [List.find?_cons, hp]
    · have hmem' : ∃ q ∈ m, q.1 = k := by
        rcases hmem with ⟨q, hq, hqk⟩
        rcases List.mem_cons.mp hq with rfl | hq
        · exact absurd hqk hp
        · exact ⟨q, hq, hqk⟩
      simp [List.find?_cons, hp, ih hmem']

lemma find?_map_overwrite_ne {α β : Type} [DecidableEq α]
    (m : List (α × β)) (k : α) (v : β) (k' : α) (hne : k' ≠ k) :
    (m.map (fun p => if p.1 = k then (k, v) else p)).find?
      (fun p => p.1 = k') = m.find? (fun p => p.1 = k') := by
  induction m with
  | nil => rfl
  | cons p m ih =>
    simp only [List.map_cons, List.find?_cons]
    by_cases hp : p.1 = k
    · rw [if_pos hp]
      have h1 : (decide (((k, v) : α × β).1 = k')) = false := by
        simp only [decide_eq_false_iff_not]
        exact fun h => hne h.symm
      have h2 : (decide (p.1 = k')) = false := by
        simp only [decide_eq_false_iff_not, hp]
        exact fun h => hne h.symm
      rw [h1, h2]
      exact ih
    · rw [if_neg hp]
      cases hp' : decide (p.1 = k') with
      | true => rfl
      | false => exact ih

lemma dictGet_dictSet_self {α β : Type} [DecidableEq α]
    (m : List (α × β)) (k : α) (v : β) :
    dictGet (dictSet m k v) k = some v := by
  unfold dictSet dictGet
  by_cases hmem : m.any (fun p => p.1 = k)
  · rw [if_pos hmem, find?_map_overwrite_self m k v
      (by simpa using List.any_eq_true.mp hmem)]
    rfl
  · rw [if_neg hmem]
    have hnone : m.find? (fun p => p.1 = k) = none :=
      List.find?_eq_none.mpr fun x hx hxk => by
        exact hmem (List.any_eq_true.mpr ⟨x, hx, hxk⟩)
    rw [List.find?_append, hnone]
    simp [List.find?_cons]

lemma dictGet_dictSet_ne {α β : Type} [DecidableEq α]
    (m : List (α × β)) (k : α) (v : β) (k' : α) (hne : k' ≠ k) :
    dictGet (dictSet m k v) k' = dictGet m k' := by
  unfold dictSet dictGet
  by_cases hmem : m.any (fun p => p.1 = k)
  · rw [if_pos hmem, find?_map_overwrite_ne m k v k' hne]
  · rw [if_neg hmem, List.find?_append]
    cases h : m.find? (fun p => p.1 = k') with
    | some q => simp [h]
    | none =>
      have : ¬ ((k : α) = k') := fun hh => hne hh.symm
      simp [h, List.find?_cons, this]

lemma dictGet_build_foldl {α β γ : Type} [DecidableEq α]
    (key : γ → α) (val : γ → β) (rows : List γ) :
    ∀ (m0 : List (α × β)) (k : α),
      ((dictGet (rows.foldl
          (fun m row => dictSet m (key row) (val row)) m0) k).isSome ↔
        ((dictGet m0 k).isSome ∨ ∃ row ∈ rows, key row = k)) ∧
      (∀ v, dictGet (rows.foldl
          (fun m row => dictSet m (key row) (val row)) m0) k = some v →
        ((∃ row ∈ rows, key row = k ∧ val row = v) ∨
          dictGet m0 k = some v)) := by
  induction rows with
  | nil =>
    intro m0 k
    simp
  | cons row rows ih =>
    intro m0 k
    rw [List.foldl_cons]
    obtain ⟨ih1, ih2⟩ := ih (dictSet m0 (key row) (val row)) k
    by_cases hk : key row = k
    · constructor
      · rw [ih1]
        subst hk
        rw [dictGet_dictSet_self]
        simp
      · intro v hv
        rcases ih2 v hv with ⟨row', h1, h2, h3⟩ | h
        · exact Or.inl ⟨row', List.mem_cons_of_mem _ h1, h2, h3⟩
        · subst hk
          rw [dictGet_dictSet_self] at h
          injection h with h
          exact Or.inl ⟨row, List.mem_cons_self _ _, rfl, h⟩
    · constructor
      · rw [ih1, dictGet_dictSet_ne m0 (key row) (val row) k
          (fun h => hk h.symm)]
        constructor
        · rintro (h | ⟨row', h1, h2⟩)
          · exact Or.inl h
          · exact Or.inr ⟨row', List.mem_cons_of_mem _ h1, h2⟩
        · rintro (h | ⟨row', h1, h2⟩)
          · exact Or.inl h
          · rcases List.mem_cons.mp h1 with rfl | h1
            · exact absurd h2 hk
            · exact Or.inr ⟨row', h1, h2⟩
      · intro v hv
        rcases ih2 v hv with ⟨row', h1, h2, h3⟩ | h
        · exact Or.inl ⟨row', List.mem_cons_of_mem _ h1, h2, h3⟩
        · rw [dictGet_dictSet_ne m0 (key row) (val row) k
            (fun h => hk h.symm)] at h
          exact Or.inr h

lemma mem_extract_race_ids (odds_data : List LiveRecord) (rid : String) :
    rid ∈ extract_race_ids odds_data ↔
      ∃ r ∈ odds_data, truthyStr r.race_id = some rid := by
  simp [extract_race_ids, List.mem_dedup, List.mem_filterMap]

/-- C2 counterexample: the bulk read is scoped by race id only.  With a
batch containing the single key ("r1", "h1", "b1") and a stored snapshot
row for the key ("r1", "h2", "b2") in the same race, the read returns a
value for ("r1", "h2", "b2") — a key carried by no record of the
batch. -/
theorem C2_counterexample :
    dictGet
      (fetch_existing_odds_for_races
        (extract_race_ids
          [LiveRecord.mk (some "r1") (some "h1") (some "b1") none none none
            none none (some 2) none])
        [SnapshotRow.mk "r1" "h2" "b2" (some 3)])
      ("r1", "h2", "b2") = some (some 3) ∧
    ∀ r ∈ [LiveRecord.mk (some "r1") (some "h1") (some "b1") none none none
        none none (some 2) none],
      ¬ (truthyStr r.race_id = some "r1" ∧ truthyStr r.horse_id = some "h2"
          ∧ truthyStr r.bookmaker_id = some "b2") := by
  exact ⟨by decide, by decide⟩

/-- C2 (amended): the change-detection bulk read is scoped to exactly
the *race ids* present in the incoming batch: a key is read iff the
store holds a row with that key whose race id is the race id of some
batch record — so every row in the batch's races is read (also for
horse/bookmaker combinations absent from the batch), and no row of any
other race is read. -/
theorem C2_bulk_read_scope (db : List SnapshotRow)
    (odds_data : List LiveRecord) (k : Key) :
    ((dictGet (fetch_existing_odds_for_races (extract_race_ids odds_data)
        db) k).isSome ↔
      ∃ row ∈ db, (row.race_id, row.horse_id, row.bookmaker_id) = k ∧
        ∃ r ∈ odds_data, truthyStr r.race_id = some row.race_id) ∧
    (∀ v, dictGet (fetch_existing_odds_for_races
        (extract_race_ids odds_data) db) k = some v →
      ∃ row ∈ db, (row.race_id, row.horse_id, row.bookmaker_id) = k ∧
        row.odds_decimal = v ∧
        ∃ r ∈ odds_data, truthyStr r.race_id = some row.race_id) := by
  unfold fetch_existing_odds_for_races
  by_cases hemp : (extract_race_ids odds_data).isEmpty
  · have hnil : extract_race_ids odds_data = [] := by
      simpa [List.isEmpty_iff] using hemp
    have hno : ∀ r ∈ odds_data, ∀ rid, truthyStr r.race_id ≠ some rid := by
      intro r hr rid hrid
      have : rid ∈ extract_race_ids odds_data :=
        (mem_extract_race_ids odds_data rid).mpr ⟨r, hr, hrid⟩
      rw [hnil] at this
      simp at this
    rw [if_pos hemp]
    constructor
    · simp only [dictGet, List.find?_nil, Option.map_none', Option.isSome_none,
        Bool.false_eq_true, false_iff]
      rintro ⟨row, -, -, r, hr, hrid⟩
      exact hno r hr _ hrid
    · intro v hv
      simp [dictGet] at hv
  · rw [if_neg hemp]
    obtain ⟨h1, h2⟩ := dictGet_build_foldl
      (fun row : SnapshotRow => (row.race_id, row.horse_id, row.bookmaker_id))
      (fun row => row.odds_decimal)
      (db.filter (fun row =>
        (extract_race_ids odds_data).contains row.race_id)) [] k
    constructor
    · rw [h1]
      simp only [dictGet, List.find?_nil, Option.map_none', Option.isSome_none,
        Bool.false_eq_true, false_or]
      constructor
      · rintro ⟨row, hrow, hkey⟩
        obtain ⟨hdb, hcont⟩ := List.mem_filter.mp hrow
        have hridmem : row.race_id ∈ extract_race_ids odds_data := by
          simpa using hcont
        exact ⟨row, hdb, hkey,
          (mem_extract_race_ids odds_data row.race_id).mp hridmem⟩
      · rintro ⟨row, hdb, hkey, r, hr, hrid⟩
        refine ⟨row, List.mem_filter.mpr ⟨hdb, ?_⟩, hkey⟩
        have : row.race_id ∈ extract_race_ids odds_data :=
          (mem_extract_race_ids odds_data row.race_id).mpr ⟨r, hr, hrid⟩
        simpa using this
    · intro v hv
      rcases h2 v hv with ⟨row, hrow, hkey, hval⟩ | h
      · obtain ⟨hdb, hcont⟩ := List.mem_filter.mp hrow
        have hridmem : row.race_id ∈ extract_race_ids odds_data := by
          simpa using hcont
        exact ⟨row, hdb, hkey, hval,
          (mem_extract_race_ids odds_data row.race_id).mp hridmem⟩
      · simp [dictGet] at h

/-- C2 witness: the amended scope characterization evaluated at the
counterexample's store and batch — the foreign-bookmaker row of the
batch's race is read because its race id is in the batch. -/
theorem C2_bulk_read_scope_witness :
    ∃ row ∈ [SnapshotRow.mk "r1" "h2" "b2" (some 3)],
      (row.race_id, row.horse_id, row.bookmaker_id) =
        (("r1", "h2", "b2") : Key) ∧
      ∃ r ∈ [LiveRecord.mk (some "r1") (some "h1") (some "b1") none none
          none none none (some 2) none],
        truthyStr r.race_id = some row.race_id := by
  refine (C2_bulk_read_scope [SnapshotRow.mk "r1" "h2" "b2" (some 3)]
    [LiveRecord.mk (some "r1") (some "h1") (some "b1") none none none none
      none (some 2) none] ("r1", "h2", "b2")).1.mp ?_
  decide

lemma changeDetectStep_eq (m : OddsMap) (acc : List LiveRecord × ℕ)
    (r : LiveRecord) :
    changeDetectStep m acc r =
      (if isKept m r then acc.1 ++ [r] else acc.1,
       if isSkipped m r then acc.2 + 1 else acc.2) := by
  unfold changeDetectStep isKept isSkipped recKey
  cases h1 : truthyStr r.race_id with
  | none => simp
  | some rid =>
    cases h2 : truthyStr r.horse_id with
    | none => simp
    | some hid =>
      cases h3 : truthyStr r.bookmaker_id with
      | none => simp
      | some bid =>
        cases h4 : dictGet m (rid, hid, bid) with
        | none => simp [h4]
        | some ov =>
          cases ov with
          | none => simp [h4]
          | some v =>
            cases h5 : r.odds_decimal with
            | none => simp [h4, h5]
            | some w =>
              by_cases hvw : v = w <;> simp [h4, h5, hvw]

lemma filterChangedOdds_eq (m : OddsMap) (l : List LiveRecord) :
    filterChangedOdds m l =
      (l.filter (isKept m), l.countP (isSkipped m)) := by
  suffices h : ∀ acc, l.foldl (changeDetectStep m) acc =
      (acc.1 ++ l.filter (isKept m), acc.2 + l.countP (isSkipped m)) by
    simpa [filterChangedOdds] using h ([], 0)
  induction l with
  | nil => intro acc; simp
  | cons r l ih =>
    intro acc
    rw [List.foldl_cons, changeDetectStep_eq, ih]
    rw [List.filter_cons, List.countP_cons]
    by_cases hk : isKept m r <;> by_cases hs : isSkipped m r <;>
      simp [hk, hs, List.append_assoc] <;> omega

lemma chunksOf_cons_eq (x : LiveRecord) (xs : List LiveRecord) :
    chunksOf 100 (x :: xs) =
      (x :: xs).take 100 :: chunksOf 100 ((x :: xs).drop 100) := by
  rw [chunksOf]
  rfl

lemma chunksFold_go (m : OddsMap) (bid : String) :
    ∀ (n : ℕ) (l : List LiveRecord), l.length ≤ n →
      ∀ (acc : ℕ × ℕ × List PreparedRecord),
      (chunksOf 100 l).foldl
        (fun acc chunk =>
          let prepared := chunk.filterMap prepare_live_record
          let ins := chunk.countP (fun r =>
            (prepare_live_record r).isSome
              && !(dictGet m (rawKey r bid)).isSome)
          let upd := chunk.countP (fun r =>
            (prepare_live_record r).isSome
              && (dictGet m (rawKey r bid)).isSome)
          (acc.1 + ins, acc.2.1 + upd, acc.2.2 ++ prepared)) acc =
      (acc.1 + l.countP (fun r =>
          (prepare_live_record r).isSome
            && !(dictGet m (rawKey r bid)).isSome),
       acc.2.1 + l.countP (fun r =>
          (prepare_live_record r).isSome
            && (dictGet m (rawKey r bid)).isSome),
       acc.2.2 ++ l.filterMap prepare_live_record) := by
  intro n
  induction n with
  | zero =>
    intro l hl acc
    have : l = [] := List.length_eq_zero.mp (Nat.le_zero.mp hl)
    subst this
    simp [chunksOf]
  | succ n ihn =>
    intro l hl acc
    cases l with
    | nil => simp [chunksOf]
    | cons x xs =>
      rw [chunksOf_cons_eq, List.foldl_cons]
      have hlen : ((x :: xs).drop 100).length ≤ n := by
        simp only [List.length_drop, List.length_cons]
        simp only [List.length_cons] at hl
        omega
      rw [ihn ((x :: xs).drop 100) hlen]
      have hsplit : ∀ p : LiveRecord → Bool,
          (x :: xs).countP p =
            ((x :: xs).take 100).countP p +
              ((x :: xs).drop 100).countP p := by
        intro p
        conv_lhs => rw [← List.take_append_drop 100 (x :: xs)]
        rw [List.countP_append]
      have hfm : (x :: xs).filterMap prepare_live_record =
          ((x :: xs).take 100).filterMap prepare_live_record ++
            ((x :: xs).drop 100).filterMap prepare_live_record := by
        conv_lhs => rw [← List.take_append_drop 100 (x :: xs)]
        rw [List.filterMap_append]
      refine Prod.ext ?_ (Prod.ext ?_ ?_)
      · simp only [hsplit]
        omega
      · simp only [hsplit]
        omega
      · simp only [hfm, List.append_assoc]

lemma process_bookmaker_batch_spec (m : OddsMap) (bid : String)
    (records : List LiveRecord) :
    process_bookmaker_batch m bid records =
      (records.countP (fun r => (prepare_live_record r).isSome
          && !(dictGet m (rawKey r bid)).isSome),
       records.countP (fun r => (prepare_live_record r).isSome
          && (dictGet m (rawKey r bid)).isSome),
       records.filterMap prepare_live_record) := by
  unfold process_bookmaker_batch
  rw [chunksFold_go m bid records.length records le_rfl (0, 0, [])]
  simp

lemma truthyStr_some {v : Option String} {s : String}
    (h : truthyStr v = some s) : v = some s := by
  cases v with
  | none => simp [truthyStr] at h
  | some x =>
    by_cases hx : x = ""
    · subst hx
      simp [truthyStr] at h
    · simp only [truthyStr] at h
      rw [if_neg hx] at h
      exact h

lemma rawKey_eq_recRawKey (r : LiveRecord) (bid : String)
    (h : truthyStr r.bookmaker_id = some bid) :
    rawKey r bid = recRawKey r := by
  unfold rawKey recRawKey
  rw [h]
  rfl

lemma recRawKey_of_recKey {r : LiveRecord} {k : Key}
    (h : recKey r = some k) : recRawKey r = k := by
  unfold recKey at h
  cases h1 : truthyStr r.race_id with
  | none => rw [h1] at h; cases h
  | some rid =>
    cases h2 : truthyStr r.horse_id with
    | none => rw [h1, h2] at h; cases h
    | some hid =>
      cases h3 : truthyStr r.bookmaker_id with
      | none => rw [h1, h2, h3] at h; cases h
      | some bid =>
        rw [h1, h2, h3] at h
        injection h with h
        subst h
        unfold recRawKey
        rw [truthyStr_some h1, truthyStr_some h2, h3]
        rfl

lemma kept_bid_isSome {m : OddsMap} {r : LiveRecord}
    (h : isKept m r = true) : (truthyStr r.bookmaker_id).isSome := by
  unfold isKept at h
  have hkey : (recKey r).isSome := by
    cases hx : (recKey r).isSome
    · rw [hx] at h; simp at h
    · rfl
  unfold recKey at hkey
  cases h1 : truthyStr r.race_id <;> rw [h1] at hkey <;>
    cases h2 : truthyStr r.horse_id <;> try rw [h2] at hkey
  all_goals first
  | simp at hkey
  | (cases h3 : truthyStr r.bookmaker_id <;> rw [h3] at hkey
     · simp at hkey
     · simp)

lemma group_by_bookmaker_members (l : List LiveRecord)
    (g : String × List LiveRecord) (hg : g ∈ group_by_bookmaker l) :
    (∀ r ∈ g.2, truthyStr r.bookmaker_id = some g.1) := by
  unfold group_by_bookmaker at hg
  obtain ⟨bid, -, rfl⟩ := List.mem_map.mp hg
  intro r hr
  have := (List.mem_filter.mp hr).2
  simpa using this

lemma flatMap_filter_bids_perm :
    ∀ (bids : List String) (l : List LiveRecord), bids.Nodup →
      (∀ r ∈ l, ∀ b, truthyStr r.bookmaker_id = some b → b ∈ bids) →
      (∀ r ∈ l, (truthyStr r.bookmaker_id).isSome) →
      bids.flatMap (fun bid =>
        l.filter (fun r => truthyStr r.bookmaker_id = some bid)) ~ l := by
  intro bids
  induction bids with
  | nil =>
    intro l hnd hcov hbid
    cases l with
    | nil => simp
    | cons r t =>
      have h1 := hbid r (List.mem_cons_self _ _)
      obtain ⟨b, hb⟩ := Option.isSome_iff_exists.mp h1
      exact absurd (hcov r (List.mem_cons_self _ _) b hb) (by simp)
  | cons b bids ih =>
    intro l hnd hcov hbid
    rw [List.flatMap_cons]
    have hnd' := (List.nodup_cons.mp hnd).2
    have hbmem := (List.nodup_cons.mp hnd).1
    have hfilter_eq : ∀ bid ∈ bids,
        l.filter (fun r => truthyStr r.bookmaker_id = some bid) =
          (l.filter (fun r =>
            !(decide (truthyStr r.bookmaker_id = some b)))).filter
            (fun r => truthyStr r.bookmaker_id = some bid) := by
      intro bid hbid'
      rw [List.filter_filter]
      apply List.filter_congr
      intro r _
      by_cases hr : truthyStr r.bookmaker_id = some bid
      · have hne : bid ≠ b := fun hcon => hbmem (hcon ▸ hbid')
        simp [hr, hne]
      · simp [hr]
    have hmap : bids.map (fun bid =>
        l.filter (fun r => truthyStr r.bookmaker_id = some bid)) =
        bids.map (fun bid =>
          (l.filter (fun r =>
            !(decide (truthyStr r.bookmaker_id = some b)))).filter
            (fun r => truthyStr r.bookmaker_id = some bid)) :=
      List.map_congr_left hfilter_eq
    rw [List.flatMap_def, hmap, ← List.flatMap_def]
    have hperm' := ih (l.filter (fun r =>
        !(decide (truthyStr r.bookmaker_id = some b)))) hnd'
      (by
        intro r hr b' hb'
        obtain ⟨hrl, hrb⟩ := List.mem_filter.mp hr
        rcases List.mem_cons.mp (hcov r hrl b' hb') with h | h
        · exfalso
          subst h
          rw [hb'] at hrb
          simp at hrb
        · exact h)
      (by
        intro r hr
        exact hbid r (List.mem_filter.mp hr).1)
    calc l.filter (fun r => truthyStr r.bookmaker_id = some b) ++
          (bids.flatMap (fun bid =>
            (l.filter (fun r =>
              !(decide (truthyStr r.bookmaker_id = some b)))).filter
              (fun r => truthyStr r.bookmaker_id = some bid)))
        ~ l.filter (fun r => truthyStr r.bookmaker_id = some b) ++
            l.filter (fun r =>
              !(decide (truthyStr r.bookmaker_id = some b))) :=
          List.Perm.append_left _ hperm'
      _ ~ l := List.filter_append_perm _ l

lemma flat_groups_perm (l : List LiveRecord)
    (hbid : ∀ r ∈ l, (truthyStr r.bookmaker_id).isSome) :
    (group_by_bookmaker l).flatMap (fun g => g.2) ~ l := by
  unfold group_by_bookmaker
  rw [List.flatMap_map]
  refine flatMap_filter_bids_perm _ l (List.nodup_dedup _) ?_ hbid
  intro r hr b hb
  rw [List.mem_dedup]
  exact List.mem_filterMap.mpr ⟨r, hr, hb⟩

lemma groups_fold_spec (m : OddsMap) (gs : List (String × List LiveRecord))
    (hgs : ∀ g ∈ gs, ∀ r ∈ g.2, truthyStr r.bookmaker_id = some g.1) :
    ∀ acc : ℕ × ℕ × List PreparedRecord,
      gs.foldl (fun acc g =>
        let r := process_bookmaker_batch m g.1 g.2
        (acc.1 + r.1, acc.2.1 + r.2.1, acc.2.2 ++ r.2.2)) acc =
      (acc.1 + (gs.flatMap (fun g => g.2)).countP (fun r =>
          (prepare_live_record r).isSome
            && !(dictGet m (recRawKey r)).isSome),
       acc.2.1 + (gs.flatMap (fun g => g.2)).countP (fun r =>
          (prepare_live_record r).isSome
            && (dictGet m (recRawKey r)).isSome),
       acc.2.2 ++ (gs.flatMap (fun g => g.2)).filterMap
          prepare_live_record) := by
  induction gs with
  | nil => intro acc; simp
  | cons g gs ih =>
    intro acc
    rw [List.foldl_cons, List.flatMap_cons]
    have hg := hgs g (List.mem_cons_self _ _)
    have hcIns : g.2.countP (fun r => (prepare_live_record r).isSome
        && !(dictGet m (rawKey r g.1)).isSome) =
        g.2.countP (fun r => (prepare_live_record r).isSome
          && !(dictGet m (recRawKey r)).isSome) := by
      apply List.countP_congr
      intro r hr
      rw [rawKey_eq_recRawKey r g.1 (hg r hr)]
    have hcUpd : g.2.countP (fun r => (prepare_live_record r).isSome
        && (dictGet m (rawKey r g.1)).isSome) =
        g.2.countP (fun r => (prepare_live_record r).isSome
          && (dictGet m (recRawKey r)).isSome) := by
      apply List.countP_congr
      intro r hr
      rw [rawKey_eq_recRawKey r g.1 (hg r hr)]
    rw [ih (fun g' hg' => hgs g' (List.mem_cons_of_mem _ hg'))]
    rw [process_bookmaker_batch_spec, List.countP_append,
      List.countP_append, List.filterMap_append]
    dsimp only
    rw [hcIns, hcUpd]
    refine Prod.ext ?_ (Prod.ext ?_ ?_)
    · dsimp only; omega
    · dsimp only; omega
    · dsimp only; rw [List.append_assoc]

lemma countP_classifiedInserted_filter (m : OddsMap) (l : List LiveRecord) :
    (l.filter (isKept m)).countP (fun r =>
        (prepare_live_record r).isSome
          && !(dictGet m (recRawKey r)).isSome) =
      l.countP (classifiedInserted m) := by
  rw [List.countP_filter]
  apply List.countP_congr
  intro r _
  unfold classifiedInserted
  cases h1 : isKept m r <;> cases h2 : (prepare_live_record r).isSome <;>
    cases h3 : (dictGet m (recRawKey r)).isSome <;> simp [h1, h2, h3]

lemma countP_classifiedUpdated_filter (m : OddsMap) (l : List LiveRecord) :
    (l.filter (isKept m)).countP (fun r =>
        (prepare_live_record r).isSome
          && (dictGet m (recRawKey r)).isSome) =
      l.countP (classifiedUpdated m) := by
  rw [List.countP_filter]
  apply List.countP_congr
  intro r _
  unfold classifiedUpdated
  cases h1 : isKept m r <;> cases h2 : (prepare_live_record r).isSome <;>
    cases h3 : (dictGet m (recRawKey r)).isSome <;> simp [h1, h2, h3]

lemma update_live_odds_spec (db : List SnapshotRow)
    (odds_data : List LiveRecord) (m : OddsMap)
    (hm : m = fetch_existing_odds_for_races (extract_race_ids odds_data) db) :
    (update_live_odds db odds_data).1 =
      { inserted := odds_data.countP (classifiedInserted m),
        updated := odds_data.countP (classifiedUpdated m),
        skipped := odds_data.countP (isSkipped m),
        errors := 0 } ∧
    (update_live_odds db odds_data).2 ~
      (odds_data.filter (isKept m)).filterMap prepare_live_record := by
  subst hm
  set m := fetch_existing_odds_for_races (extract_race_ids odds_data) db
    with hm
  unfold update_live_odds
  dsimp only
  rw [← hm, filterChangedOdds_eq]
  dsimp only
  by_cases hemp : (odds_data.filter (isKept m)).isEmpty
  · rw [if_pos hemp]
    have hnil : odds_data.filter (isKept m) = [] := by
      simpa [List.isEmpty_iff] using hemp
    have hnone : ∀ r ∈ odds_data, isKept m r = false := by
      intro r hr
      cases hk : isKept m r
      · rfl
      · exfalso
        have : r ∈ odds_data.filter (isKept m) :=
          List.mem_filter.mpr ⟨hr, hk⟩
        rw [hnil] at this
        simp at this
    constructor
    · have hins : odds_data.countP (classifiedInserted m) = 0 :=
        List.countP_eq_zero.mpr fun r hr => by
          unfold classifiedInserted
          rw [hnone r hr]
          simp
      have hupd : odds_data.countP (classifiedUpdated m) = 0 :=
        List.countP_eq_zero.mpr fun r hr => by
          unfold classifiedUpdated
          rw [hnone r hr]
          simp
      rw [hins, hupd]
    · rw [hnil]
      simp
  · rw [if_neg hemp]
    have hgs := groups_fold_spec m
      (group_by_bookmaker (odds_data.filter (isKept m)))
      (fun g hg => group_by_bookmaker_members _ g hg) (0, 0, [])
    rw [hgs]
    have hbidall : ∀ r ∈ odds_data.filter (isKept m),
        (truthyStr r.bookmaker_id).isSome :=
      fun r hr => kept_bid_isSome (List.mem_filter.mp hr).2
    have hperm := flat_groups_perm (odds_data.filter (isKept m)) hbidall
    constructor
    · dsimp only
      rw [hperm.countP_eq, hperm.countP_eq,
        countP_classifiedInserted_filter, countP_classifiedUpdated_filter]
      simp
    · dsimp only
      rw [List.nil_append]
      exact hperm.filterMap prepare_live_record

/-- C1 (amended): for every batch and every record carrying all three
identifiers *that survives record preparation* (all required fields
present): if the store holds a numerically equal decimal for its key the
record is classified skipped and excluded from the write set; if the
stored value differs numerically the prepared record is written and the
record is classified updated; if the store holds nothing for the key the
prepared record is written and the record is classified new/inserted —
and the returned statistics are exactly the counts of these
classifications over the batch. -/
theorem C1_change_detection_upsert (db : List SnapshotRow)
    (odds_data : List LiveRecord) (m : OddsMap)
    (hm : m = fetch_existing_odds_for_races (extract_race_ids odds_data) db)
    (r : LiveRecord) (p : PreparedRecord) (k : Key)
    (hr : r ∈ odds_data) (hk : recKey r = some k)
    (hp : prepare_live_record r = some p) :
    ((update_live_odds db odds_data).1.skipped =
        odds_data.countP (isSkipped m) ∧
     (update_live_odds db odds_data).1.updated =
        odds_data.countP (classifiedUpdated m) ∧
     (update_live_odds db odds_data).1.inserted =
        odds_data.countP (classifiedInserted m)) ∧
    (∀ v, dictGet m k = some (some v) → r.odds_decimal = some v →
      isSkipped m r = true ∧ isKept m r = false ∧
      r ∉ (filterChangedOdds m odds_data).1) ∧
    (∀ v w, dictGet m k = some (some v) → r.odds_decimal = some w →
      w ≠ v →
      classifiedUpdated m r = true ∧
      p ∈ (update_live_odds db odds_data).2) ∧
    (dictGet m k = none →
      classifiedInserted m r = true ∧
      p ∈ (update_live_odds db odds_data).2) := by
  obtain ⟨hstats, hperm⟩ := update_live_odds_spec db odds_data m hm
  have hmem_written : isKept m r = true →
      p ∈ (update_live_odds db odds_data).2 := by
    intro hkept
    rw [hperm.mem_iff]
    exact List.mem_filterMap.mpr ⟨r, List.mem_filter.mpr ⟨hr, hkept⟩, hp⟩
  refine ⟨⟨by rw [hstats], by rw [hstats], by rw [hstats]⟩, ?_, ?_, ?_⟩
  · intro v hv hodds
    have hskip : isSkipped m r = true := by
      unfold isSkipped
      rw [hk]
      show (match dictGet m k, r.odds_decimal with
            | some (some v), some w => decide (v = w)
            | _, _ => false) = true
      rw [hv, hodds]
      simp
    have hkept : isKept m r = false := by
      unfold isKept
      rw [hskip]
      simp
    refine ⟨hskip, hkept, ?_⟩
    rw [filterChangedOdds_eq]
    intro hmem
    have := (List.mem_filter.mp hmem).2
    rw [hkept] at this
    cases this
  · intro v w hv hodds hne
    have hskip : isSkipped m r = false := by
      unfold isSkipped
      rw [hk]
      show (match dictGet m k, r.odds_decimal with
            | some (some v), some w => decide (v = w)
            | _, _ => false) = false
      rw [hv, hodds]
      simpa using fun hcon => hne hcon.symm
    have hkept : isKept m r = true := by
      unfold isKept
      rw [hskip, hk]
      simp
    have hclass : classifiedUpdated m r = true := by
      unfold classifiedUpdated
      rw [hkept, hp, recRawKey_of_recKey hk, hv]
      simp
    exact ⟨hclass, hmem_written hkept⟩
  · intro hv
    have hskip : isSkipped m r = false := by
      unfold isSkipped
      rw [hk]
      show (match dictGet m k, r.odds_decimal with
            | some (some v), some w => decide (v = w)
            | _, _ => false) = false
      rw [hv]
    have hkept : isKept m r = true := by
      unfold isKept
      rw [hskip, hk]
      simp
    have hclass : classifiedInserted m r = true := by
      unfold classifiedInserted
      rw [hkept, hp, recRawKey_of_recKey hk, hv]
      simp
    exact ⟨hclass, hmem_written hkept⟩

/-- C1 counterexample: a record that carries all three identifiers and a
decimal value differing from the stored one, but lacks the `course`
field required by `_prepare_live_record`.  The claim says exactly one
record for its key is written and classified updated; the code writes
nothing and classifies nothing (the record is silently dropped at
preparation). -/
theorem C1_counterexample :
    recKey (LiveRecord.mk (some "r1") (some "h1") (some "b1")
        (some "2025-01-01") none (some "X") (some "B") (some "t")
        (some 3) none) = some ("r1", "h1", "b1") ∧
    dictGet
      (fetch_existing_odds_for_races
        (extract_race_ids
          [LiveRecord.mk (some "r1") (some "h1") (some "b1")
            (some "2025-01-01") none (some "X") (some "B") (some "t")
            (some 3) none])
        [SnapshotRow.mk "r1" "h1" "b1" (some 2)])
      ("r1", "h1", "b1") = some (some 2) ∧
    (LiveRecord.mk (some "r1") (some "h1") (some "b1") (some "2025-01-01")
        none (some "X") (some "B") (some "t") (some 3) none).odds_decimal =
      some 3 ∧
    ((3 : ℚ) ≠ 2) ∧
    (update_live_odds [SnapshotRow.mk "r1" "h1" "b1" (some 2)]
        [LiveRecord.mk (some "r1") (some "h1") (some "b1")
          (some "2025-01-01") none (some "X") (some "B") (some "t")
          (some 3) none]).1.updated = 0 ∧
    (update_live_odds [SnapshotRow.mk "r1" "h1" "b1" (some 2)]
        [LiveRecord.mk (some "r1") (some "h1") (some "b1")
          (some "2025-01-01") none (some "X") (some "B") (some "t")
          (some 3) none]).2 = [] := by
  obtain ⟨hstats, hperm⟩ := update_live_odds_spec
    [SnapshotRow.mk "r1" "h1" "b1" (some 2)]
    [LiveRecord.mk (some "r1") (some "h1") (some "b1") (some "2025-01-01")
      none (some "X") (some "B") (some "t") (some 3) none] _ rfl
  refine ⟨by decide, by decide, rfl, by decide, ?_, ?_⟩
  · rw [hstats]
    decide
  · refine List.Perm.eq_nil ?_
    have hnil : (List.filter
        (isKept (fetch_existing_odds_for_races
          (extract_race_ids
            [LiveRecord.mk (some "r1") (some "h1") (some "b1")
              (some "2025-01-01") none (some "X") (some "B") (some "t")
              (some 3) none])
          [SnapshotRow.mk "r1" "h1" "b1" (some 2)]))
        [LiveRecord.mk (some "r1") (some "h1") (some "b1")
          (some "2025-01-01") none (some "X") (some "B") (some "t")
          (some 3) none]).filterMap prepare_live_record =
        ([] : List PreparedRecord) := by decide
    rw [← hnil]
    exact hperm

/-- C1 witness: the amended theorem at a fully valid record whose stored
decimal (2) differs from the incoming one (3) — the prepared record is
written. -/
theorem C1_change_detection_upsert_witness :
    PreparedRecord.mk (some "r1") (some "h1") (some "b1")
        (some "2025-01-01") (some "Ascot") (some "X") (some "B")
        (some "t") (some 3) none ∈
      (update_live_odds [SnapshotRow.mk "r1" "h1" "b1" (some 2)]
        [LiveRecord.mk (some "r1") (some "h1") (some "b1")
          (some "2025-01-01") (some "Ascot") (some "X") (some "B")
          (some "t") (some 3) none]).2 := by
  have h := C1_change_detection_upsert
    [SnapshotRow.mk "r1" "h1" "b1" (some 2)]
    [LiveRecord.mk (some "r1") (some "h1") (some "b1") (some "2025-01-01")
      (some "Ascot") (some "X") (some "B") (some "t") (some 3) none]
    _ rfl
    (LiveRecord.mk (some "r1") (some "h1") (some "b1") (some "2025-01-01")
      (some "Ascot") (some "X") (some "B") (some "t") (some 3) none)
    (PreparedRecord.mk (some "r1") (some "h1") (some "b1")
      (some "2025-01-01") (some "Ascot") (some "X") (some "B") (some "t")
      (some 3) none)
    ("r1", "h1", "b1") (by decide) (by decide) (by decide)
  exact (h.2.2.1 2 3 (by decide) rfl (by decide)).2
